import Mathlib

/-!
Shallow embedding of the extraction / normalization / confidence-partition /
risk-gate core of the bicep-whatif-explain repository, together with proofs
about the claims of its specification.  Strings are lists of characters,
Python dicts are ordered association lists, and every fallible Python
operation is modelled in the `Except` monad so that raised exceptions are
visible as error values.
-/

set_option maxRecDepth 8000

namespace WhatIf

/-- Shorthand: the character list of a string literal. -/
def S (s : String) : List Char := s.toList

/-- JSON values as produced by Python's `json.loads`.  JSON `null` is the same
value as Python `None`.  Numbers keep their source token (no claim under
verification depends on numeric value equality) and strings keep the source
characters between the quotes, escape sequences included. -/
inductive Json where
  | null
  | bool (b : Bool)
  | num (lit : List Char)
  | str (s : List Char)
  | arr (elems : List Json)
  | obj (fields : List (List Char × Json))
deriving Repr

mutual

/-- Structural equality test for `Json` values. -/
def jeq : Json → Json → Bool
  | .null, .null => true
  | .bool a, .bool b => a == b
  | .num a, .num b => a == b
  | .str a, .str b => a == b
  | .arr a, .arr b => jeqList a b
  | .obj a, .obj b => jeqKvs a b
  | _, _ => false

def jeqList : List Json → List Json → Bool
  | [], [] => true
  | a :: as, b :: bs => jeq a b && jeqList as bs
  | _, _ => false

def jeqKvs : List (List Char × Json) → List (List Char × Json) → Bool
  | [], [] => true
  | (k1, v1) :: as, (k2, v2) :: bs => k1 == k2 && jeq v1 v2 && jeqKvs as bs
  | _, _ => false

end

mutual

/-- Soundness of `jeq` (decidability plumbing for `Json`). -/
def jeq_eq : ∀ a b : Json, jeq a b = true → a = b
  | .null, .null, _ => rfl
  | .bool _, .bool _, h => by
      simp only [jeq, beq_iff_eq] at h
      exact congrArg Json.bool h
  | .num _, .num _, h => by
      simp only [jeq, beq_iff_eq] at h
      exact congrArg Json.num h
  | .str _, .str _, h => by
      simp only [jeq, beq_iff_eq] at h
      exact congrArg Json.str h
  | .arr a, .arr b, h => congrArg Json.arr (jeqList_eq a b h)
  | .obj a, .obj b, h => congrArg Json.obj (jeqKvs_eq a b h)

def jeqList_eq : ∀ a b : List Json, jeqList a b = true → a = b
  | [], [], _ => rfl
  | x :: xs, y :: ys, h => by
      simp only [jeqList, Bool.and_eq_true] at h
      rw [jeq_eq x y h.1, jeqList_eq xs ys h.2]

def jeqKvs_eq : ∀ a b : List (List Char × Json), jeqKvs a b = true → a = b
  | [], [], _ => rfl
  | (k1, v1) :: xs, (k2, v2) :: ys, h => by
      simp only [jeqKvs, Bool.and_eq_true, beq_iff_eq] at h
      rw [h.1.1, jeq_eq v1 v2 h.1.2, jeqKvs_eq xs ys h.2]

end

mutual

/-- Reflexivity of `jeq` (decidability plumbing for `Json`). -/
def jeq_refl : ∀ a : Json, jeq a a = true
  | .null => rfl
  | .bool b => by simp [jeq]
  | .num a => by simp [jeq]
  | .str a => by simp [jeq]
  | .arr a => jeqList_refl a
  | .obj a => jeqKvs_refl a

def jeqList_refl : ∀ a : List Json, jeqList a a = true
  | [] => rfl
  | x :: xs => by simp only [jeqList, Bool.and_eq_true]; exact ⟨jeq_refl x, jeqList_refl xs⟩

def jeqKvs_refl : ∀ a : List (List Char × Json), jeqKvs a a = true
  | [] => rfl
  | (k, v) :: xs => by
      simp only [jeqKvs, Bool.and_eq_true, beq_iff_eq]
      exact ⟨⟨by simp, jeq_refl v⟩, jeqKvs_refl xs⟩

end

instance : DecidableEq Json := fun a b =>
  if h : jeq a b = true then isTrue (jeq_eq a b h)
  else isFalse (fun he => h (he ▸ jeq_refl a))

instance : BEq Json := ⟨jeq⟩

/-- The whitespace characters accepted between JSON tokens. -/
def isWsChar (c : Char) : Bool := c = ' ' || c = '\t' || c = '\n' || c = '\r'

/-- Drop leading JSON whitespace. -/
def skipWs : List Char → List Char
  | [] => []
  | c :: cs => if isWsChar c then skipWs cs else c :: cs

def isHexChar (c : Char) : Bool :=
  c.isDigit || ('a' ≤ c && c ≤ 'f') || ('A' ≤ c && c ≤ 'F')

/-- The single-character string escapes of JSON. -/
def isSimpleEsc (c : Char) : Bool :=
  c = '"' || c = '\\' || c = '/' || c = 'b' || c = 'f' || c = 'n' || c = 'r' || c = 't'

/-- Parse the body of a JSON string literal, the opening quote already
consumed.  Returns the raw content characters and the rest of the input after
the closing quote.  Unescaped control characters are rejected, as in Python's
strict mode. -/
def parseStringBody : Nat → List Char → Option (List Char × List Char)
  | 0, _ => none
  | _, [] => none
  | fuel + 1, c :: cs =>
    if c = '"' then some ([], cs)
    else if c = '\\' then
      match cs with
      | [] => none
      | e :: cs1 =>
        if isSimpleEsc e then
          (fun p => (c :: e :: p.1, p.2)) <$> parseStringBody fuel cs1
        else if e = 'u' then
          match cs1 with
          | h1 :: h2 :: h3 :: h4 :: cs2 =>
            if isHexChar h1 && isHexChar h2 && isHexChar h3 && isHexChar h4 then
              (fun p => (c :: e :: h1 :: h2 :: h3 :: h4 :: p.1, p.2)) <$>
                parseStringBody fuel cs2
            else none
          | _ => none
        else none
    else if c.val < 32 then none
    else (fun p => (c :: p.1, p.2)) <$> parseStringBody fuel cs

/-- Leading decimal digits of the input, and the rest. -/
def takeDigits (cs : List Char) : List Char × List Char :=
  (cs.takeWhile Char.isDigit, cs.dropWhile Char.isDigit)

/-- Integer part of a JSON number: `0` or a nonzero digit followed by digits. -/
def parseIntPart : List Char → Option (List Char × List Char)
  | [] => none
  | c :: cs =>
    if c = '0' then some ([c], cs)
    else if c.isDigit then
      let t := takeDigits cs
      some (c :: t.1, t.2)
    else none

/-- Optional fraction part `.digits` of a JSON number. -/
def parseFracPart (cs : List Char) : List Char × List Char :=
  match cs with
  | '.' :: cs1 =>
    let t := takeDigits cs1
    if t.1.isEmpty then ([], cs) else ('.' :: t.1, t.2)
  | _ => ([], cs)

/-- Optional exponent part of a JSON number. -/
def parseExpPart (cs : List Char) : List Char × List Char :=
  match cs with
  | e :: cs1 =>
    if e = 'e' || e = 'E' then
      match cs1 with
      | s :: cs2 =>
        if s = '+' || s = '-' then
          let t := takeDigits cs2
          if t.1.isEmpty then ([], cs) else (e :: s :: t.1, t.2)
        else
          let t := takeDigits cs1
          if t.1.isEmpty then ([], cs) else (e :: t.1, t.2)
      | [] => ([], cs)
    else ([], cs)
  | [] => ([], cs)

/-- An unsigned JSON number token starting at the head of the input. -/
def parseNumTok (cs : List Char) : Option (List Char × List Char) :=
  match parseIntPart cs with
  | none => none
  | some (ip, cs1) =>
    let f := parseFracPart cs1
    let e := parseExpPart f.2
    some (ip ++ f.1 ++ e.1, e.2)

/-- Match a literal token and return the rest of the input. -/
def matchLit : List Char → List Char → Option (List Char)
  | [], rest => some rest
  | _ :: _, [] => none
  | p :: ps, c :: rest => if c = p then matchLit ps rest else none

/-- Python dict assignment on an ordered association list: an existing key
keeps its position and gets the new value, a new key is appended. -/
def insKey (kvs : List (List Char × Json)) (k : List Char) (v : Json) :
    List (List Char × Json) :=
  match kvs with
  | [] => [(k, v)]
  | (k0, v0) :: rest => if k0 = k then (k0, v) :: rest else (k0, v0) :: insKey rest k v

/-- Ordered association-list lookup (Python dict lookup). -/
def alookup {α : Type} (kvs : List (List Char × α)) (k : List Char) : Option α :=
  match kvs with
  | [] => none
  | (k0, v0) :: rest => if k0 = k then some v0 else alookup rest k

mutual

/-- One JSON value starting at the first significant character (whitespace
already skipped by the caller), following Python's `json` grammar including
the `NaN` and `Infinity` extensions.  Returns the value and the unconsumed
rest of the input. -/
def parseValue : Nat → List Char → Option (Json × List Char)
  | 0, _ => none
  | fuel + 1, cs =>
    match cs with
    | [] => none
    | c :: cs1 =>
      if c = '"' then
        (fun p => (Json.str p.1, p.2)) <$> parseStringBody fuel cs1
      else if c = '{' then
        match skipWs cs1 with
        | '}' :: cs2 => some (Json.obj [], cs2)
        | cs2 => parseMembers fuel cs2 []
      else if c = '[' then
        match skipWs cs1 with
        | ']' :: cs2 => some (Json.arr [], cs2)
        | cs2 => parseElems fuel cs2 []
      else
        (matchLit (S "true") cs).map (fun r => (Json.bool true, r)) <|>
        (matchLit (S "false") cs).map (fun r => (Json.bool false, r)) <|>
        (matchLit (S "null") cs).map (fun r => (Json.null, r)) <|>
        (matchLit (S "NaN") cs).map (fun r => (Json.num (S "NaN"), r)) <|>
        (matchLit (S "Infinity") cs).map (fun r => (Json.num (S "Infinity"), r)) <|>
        (matchLit (S "-Infinity") cs).map (fun r => (Json.num (S "-Infinity"), r)) <|>
        (if c = '-' then
          (parseNumTok cs1).map (fun p => (Json.num ('-' :: p.1), p.2))
        else
          (parseNumTok cs).map (fun p => (Json.num p.1, p.2)))

/-- The members of a JSON object, positioned at the opening quote of the next
key (whitespace already skipped); the closing brace is consumed here. -/
def parseMembers : Nat → List Char → List (List Char × Json) →
    Option (Json × List Char)
  | 0, _, _ => none
  | fuel + 1, cs, acc =>
    match cs with
    | '"' :: cs1 =>
      match parseStringBody fuel cs1 with
      | none => none
      | some (k, cs2) =>
        match skipWs cs2 with
        | ':' :: cs3 =>
          match parseValue fuel (skipWs cs3) with
          | none => none
          | some (v, cs4) =>
            match skipWs cs4 with
            | ',' :: cs5 => parseMembers fuel (skipWs cs5) (insKey acc k v)
            | '}' :: cs5 => some (Json.obj (insKey acc k v), cs5)
            | _ => none
        | _ => none
    | _ => none

/-- The elements of a JSON array, positioned at the first character of the
next element (whitespace already skipped); the closing bracket is consumed
here. -/
def parseElems : Nat → List Char → List Json → Option (Json × List Char)
  | 0, _, _ => none
  | fuel + 1, cs, acc =>
    match parseValue fuel cs with
    | none => none
    | some (v, cs1) =>
      match skipWs cs1 with
      | ',' :: cs2 => parseElems fuel (skipWs cs2) (acc ++ [v])
      | ']' :: cs2 => some (Json.arr (acc ++ [v]), cs2)
      | _ => none

end

/-- Python's `json.loads`: parse one value and require that only whitespace
remains. -/
def json_loads (cs : List Char) : Option Json :=
  match parseValue (cs.length + 1) (skipWs cs) with
  | some (v, rest) => if skipWs rest = [] then some v else none
  | none => none

/-- The extraction error of both `extract_json` variants (`ValueError` with
the message "Could not extract valid JSON from LLM response"). -/
inductive ExtractErr where
  | noJson
deriving DecidableEq, Repr

/-- The input from its first `{` character on (`text.find` followed by the
slice, in the brace-scan extractor). -/
def firstBraceTail (cs : List Char) : List Char := cs.dropWhile (fun c => c ≠ '{')

/-- The balanced-brace scan of the advisor's `extract_json` (cli.py lines
41-75): starting at the first brace, walk the text with a depth counter, an
in-string flag and an escape flag; return the characters up to and including
the brace that brings the depth back to zero. -/
def findBalanced : Nat → Bool → Bool → List Char → Option (List Char)
  | _, _, _, [] => none
  | d, inStr, esc, c :: cs =>
    if esc then (fun r => c :: r) <$> findBalanced d inStr false cs
    else if c = '\\' then (fun r => c :: r) <$> findBalanced d inStr true cs
    else if c = '"' then (fun r => c :: r) <$> findBalanced d (!inStr) false cs
    else if inStr then (fun r => c :: r) <$> findBalanced d inStr false cs
    else if c = '{' then (fun r => c :: r) <$> findBalanced (d + 1) false false cs
    else if c = '}' then
      if d = 1 then some [c]
      else (fun r => c :: r) <$> findBalanced (d - 1) false false cs
    else (fun r => c :: r) <$> findBalanced d false false cs

namespace BicepAdvisor

/-- The brace-scan `extract_json` of `bicep_whatif_advisor/cli.py`: try the
whole text verbatim (returning whatever `json.loads` yields), otherwise scan
from the first `{` for the balancing `}` and parse that one candidate. -/
def extract_json (text : List Char) : Except ExtractErr Json :=
  match json_loads text with
  | some v => .ok v
  | none =>
    match firstBraceTail text with
    | [] => .error .noJson
    | tail =>
      match findBalanced 0 false false tail with
      | some cand =>
        match json_loads cand with
        | some v => .ok v
        | none => .error .noJson
      | none => .error .noJson

end BicepAdvisor

/-- The item loop of the regex `\x7b(?:[^\x7b\x7d]|(?:\x7b[^\x7b\x7d]*\x7d))*\x7d`
after its opening brace: greedily consume single non-brace characters or
depth-one brace groups, succeeding when the closing brace is reached.  For
this pattern, Python's backtracking search at a fixed start position succeeds
exactly when this greedy scan does. -/
def reItems : Nat → List Char → Option (List Char)
  | 0, _ => none
  | _, [] => none
  | fuel + 1, c :: cs =>
    if c = '}' then some [c]
    else if c = '{' then
      let inner := cs.takeWhile (fun x => x ≠ '{' && x ≠ '}')
      match cs.dropWhile (fun x => x ≠ '{' && x ≠ '}') with
      | '}' :: cs2 => (fun r => '{' :: inner ++ '}' :: r) <$> reItems fuel cs2
      | _ => none
    else (fun r => c :: r) <$> reItems fuel cs

/-- Python `re.search` for the pattern above: try each start position from the
left and return the first (earliest) match. -/
def reSearch : Nat → List Char → Option (List Char)
  | 0, _ => none
  | _, [] => none
  | fuel + 1, c :: cs =>
    if c = '{' then
      match reItems (cs.length + 1) cs with
      | some m => some ('{' :: m)
      | none => reSearch fuel cs
    else reSearch fuel cs

namespace WhatifExplain

/-- The regex-based `extract_json` of `whatif_explain/cli.py`: try the whole
text verbatim, otherwise search for the two-level brace pattern and parse the
single match. -/
def extract_json (text : List Char) : Except ExtractErr Json :=
  match json_loads text with
  | some v => .ok v
  | none =>
    match reSearch (text.length + 1) text with
    | some m =>
      match json_loads m with
      | some v => .ok v
      | none => .error .noJson
    | none => .error .noJson

end WhatifExplain

/-- The Python exceptions the embedded core can raise. -/
inductive PyErr where
  | attrError
  | typeError
  | keyError
  | valueError
deriving DecidableEq, Repr

/-- Python `d.get(key, default)`: raises `AttributeError` unless `d` is a
dict. -/
def dictGet (d : Json) (k : List Char) (dflt : Json) : Except PyErr Json :=
  match d with
  | .obj kvs => .ok ((alookup kvs k).getD dflt)
  | _ => .error .attrError

/-- Python `d[key]` for a string key. -/
def pyGetItem (d : Json) (k : List Char) : Except PyErr Json :=
  match d with
  | .obj kvs =>
    match alookup kvs k with
    | some v => .ok v
    | none => .error .keyError
  | _ => .error .typeError

/-- Python `d[key] = v` for a string key. -/
def pySetItem (d : Json) (k : List Char) (v : Json) : Except PyErr Json :=
  match d with
  | .obj kvs => .ok (.obj (insKey kvs k v))
  | _ => .error .typeError

/-- Substring test on character lists (Python `in` on strings). -/
def isSubstr (pat : List Char) : List Char → Bool
  | [] => pat.isEmpty
  | c :: tail => pat.isPrefixOf (c :: tail) || isSubstr pat tail

/-- Python `key in container` for the container shapes that can appear here:
key test on dicts, membership on lists, substring test on strings,
`TypeError` otherwise. -/
def pyContains (d : Json) (k : List Char) : Except PyErr Bool :=
  match d with
  | .obj kvs => .ok (alookup kvs k).isSome
  | .arr xs => .ok (xs.contains (.str k))
  | .str s => .ok (isSubstr k s)
  | _ => .error .typeError

/-- Python iteration `for x in d`: the elements of a list, the keys of a
dict, the single-character strings of a string, `TypeError` otherwise. -/
def pyIterList (d : Json) : Except PyErr (List Json) :=
  match d with
  | .arr xs => .ok xs
  | .obj kvs => .ok (kvs.map (fun p => Json.str p.1))
  | .str s => .ok (s.map (fun c => Json.str [c]))
  | _ => .error .typeError

/-- Whether a parsed numeric token denotes zero (sign and exponent do not
matter; the mantissa must consist of zeros). -/
def numIsZero (lit : List Char) : Bool :=
  let core := (if lit.head? = some '-' then lit.tail else lit).takeWhile
    (fun c => c ≠ 'e' && c ≠ 'E')
  core.all (fun c => c = '0' || c = '.') && core.any (fun c => c = '0')

/-- Python truthiness (`if not x`) of the values that can appear here. -/
def pyFalsy (d : Json) : Bool :=
  match d with
  | .null => true
  | .bool b => !b
  | .num lit => numIsZero lit
  | .str s => s.isEmpty
  | .arr xs => xs.isEmpty
  | .obj kvs => kvs.isEmpty

/-- Python `str.lower()` on the characters involved here (ASCII). -/
def lowerChars (s : List Char) : List Char := s.map Char.toLower

/-- The per-resource body of the normalization loop in
`bicep_whatif_advisor/cli.py` lines 383-387: default a missing
`confidence_level` to "medium" and a missing `confidence_reason` to the fixed
fallback string. -/
def normResource (r : Json) : Except PyErr Json := do
  let h1 ← pyContains r (S "confidence_level")
  let r ← if h1 then pure r else pySetItem r (S "confidence_level") (.str (S "medium"))
  let h2 ← pyContains r (S "confidence_reason")
  let r ← if h2 then pure r
    else pySetItem r (S "confidence_reason") (.str (S "No confidence assessment provided"))
  pure r

/-- The normalization step of `main` (cli.py lines 374-387): default a missing
`resources` field to the empty list and a missing `overall_summary` to the
fixed fallback, then run the confidence-defaults loop over the resources.
Python mutates the resource dicts in place inside the stored list; on a list
of resources this equals rebuilding the list from the mutated entries, and on
the other iterable shapes the loop can only fail or leave the data
unchanged. -/
def normalize_data (data : Json) : Except PyErr Json := do
  let hasRes ← pyContains data (S "resources")
  let data ← if hasRes then pure data else pySetItem data (S "resources") (.arr [])
  let hasSum ← pyContains data (S "overall_summary")
  let data ← if hasSum then pure data
    else pySetItem data (S "overall_summary") (.str (S "No summary provided."))
  let res ← dictGet data (S "resources") (.arr [])
  match res with
  | .arr items => do
    let items2 ← items.mapM normResource
    pySetItem data (S "resources") (.arr items2)
  | other => do
    let keys ← pyIterList other
    let _ ← keys.mapM normResource
    pure data

/-- Whether one resource is routed to the low-confidence partition
(cli.py lines 100-107): its `confidence_level`, defaulted to "medium" and
lower-cased, is "low" or "noise".  Non-dict resources and non-string
confidence levels raise. -/
def resConfLow (r : Json) : Except PyErr Bool := do
  let c ← dictGet r (S "confidence_level") (.str (S "medium"))
  match c with
  | .str s =>
    let l := lowerChars s
    pure (l = S "low" || l = S "noise")
  | _ => .error .attrError

/-- The partition loop of `filter_by_confidence`, preserving input order. -/
def partitionResources : List Json → Except PyErr (List Json × List Json)
  | [] => .ok ([], [])
  | r :: rest => do
    let low ← resConfLow r
    let p ← partitionResources rest
    if low then pure (p.1, r :: p.2) else pure (r :: p.1, p.2)

/-- The `filter_by_confidence` of `bicep_whatif_advisor/cli.py` lines 81-127:
split the resources by confidence, give the high-confidence dict the source
`overall_summary` and (verbatim, when present) `risk_assessment` and
`verdict`, and give the low-confidence dict an empty summary and no CI
fields. -/
def filter_by_confidence (data : Json) : Except PyErr (Json × Json) := do
  let resources ← dictGet data (S "resources") (.arr [])
  let items ← pyIterList resources
  let p ← partitionResources items
  let os ← dictGet data (S "overall_summary") (.str [])
  let hasRA ← pyContains data (S "risk_assessment")
  let raFields ← if hasRA then do
      let v ← pyGetItem data (S "risk_assessment")
      pure [(S "risk_assessment", v)]
    else pure []
  let hasV ← pyContains data (S "verdict")
  let vFields ← if hasV then do
      let v ← pyGetItem data (S "verdict")
      pure [(S "verdict", v)]
    else pure []
  let high := Json.obj ([(S "resources", Json.arr p.1), (S "overall_summary", os)] ++
    raFields ++ vFields)
  let low := Json.obj [(S "resources", Json.arr p.2), (S "overall_summary", Json.str [])]
  pure (high, low)

/-- Modelled from the spec: the constant `RISK_LEVELS` is imported from
`whatif_explain.ci.verdict`, a module that is not among the provided sources;
§4.4 of the specification fixes the gate's ordinal scale as the fixed
three-level total order low < medium < high. -/
def RISK_LEVELS : List (List Char) := [S "low", S "medium", S "high"]

/-- The `_validate_risk_level` of `risk_buckets.py`: lower-case the level and
fall back to "low" when it is not one of the recognized levels.  A non-string
argument raises `AttributeError` at `.lower()`. -/
def validate_risk_level (rl : Json) : Except PyErr (List Char) :=
  match rl with
  | .str s =>
    let r := lowerChars s
    .ok (if RISK_LEVELS.contains r then r else S "low")
  | _ => .error .attrError

/-- Python `list.index`, raising `ValueError` when the element is absent. -/
def listIdx (xs : List (List Char)) (x : List Char) : Except PyErr Nat :=
  match xs with
  | [] => .error .valueError
  | y :: ys => if y = x then .ok 0 else (fun n => n + 1) <$> listIdx ys x

/-- The `_exceeds_threshold` of `risk_buckets.py`: `RISK_LEVELS.index` of both
lower-cased strings, then inclusive comparison. -/
def exceeds_threshold (risk thr : List Char) : Except PyErr Bool := do
  let ri ← listIdx RISK_LEVELS (lowerChars risk)
  let ti ← listIdx RISK_LEVELS (lowerChars thr)
  pure (ti ≤ ri)

/-- The bucket synthesized when no risk assessment is provided. -/
def noAssessmentBucket : Json :=
  .obj [(S "risk_level", .str (S "low")), (S "concerns", .arr []),
        (S "reasoning", .str (S "No risk assessment provided"))]

/-- The `evaluate_risk_buckets` of `whatif_explain/ci/risk_buckets.py` lines
22-77, in the source's evaluation order. -/
def evaluate_risk_buckets (data : Json)
    (drift_threshold intent_threshold operations_threshold : List Char) :
    Except PyErr (Bool × List (List Char) × Json) := do
  let ra ← dictGet data (S "risk_assessment") (.obj [])
  if pyFalsy ra then
    pure (true, [],
      .obj [(S "drift", noAssessmentBucket), (S "operations", noAssessmentBucket)])
  else do
    let drift_bucket ← dictGet ra (S "drift") (.obj [])
    let intent_bucket ← dictGet ra (S "intent") .null
    let operations_bucket ← dictGet ra (S "operations") (.obj [])
    let drift_rl ← dictGet drift_bucket (S "risk_level") (.str (S "low"))
    let drift_risk ← validate_risk_level drift_rl
    let ops_rl ← dictGet operations_bucket (S "risk_level") (.str (S "low"))
    let operations_risk ← validate_risk_level ops_rl
    let dFail ← exceeds_threshold drift_risk drift_threshold
    let intentFailed ←
      if intent_bucket = Json.null then pure ([] : List (List Char))
      else do
        let irl ← dictGet intent_bucket (S "risk_level") (.str (S "low"))
        let intent_risk ← validate_risk_level irl
        let iFail ← exceeds_threshold intent_risk intent_threshold
        pure (if iFail then [S "intent"] else [])
    let oFail ← exceeds_threshold operations_risk operations_threshold
    let failed := (if dFail then [S "drift"] else []) ++ intentFailed ++
      (if oFail then [S "operations"] else [])
    pure (failed.isEmpty, failed, ra)

/-- An apostrophe character (for Python `repr` of strings). -/
def sq : Char := Char.ofNat 39

mutual

/-- Python `str` of a parsed-JSON value, as interpolated by the f-strings of
the feedback reconstruction.  Numeric values print their source token. -/
def pyStr : Json → List Char
  | .null => S "None"
  | .bool true => S "True"
  | .bool false => S "False"
  | .num l => l
  | .str s => s
  | .arr xs => '[' :: pyReprElems xs ++ [']']
  | .obj kvs => '{' :: pyReprKvs kvs ++ ['}']

/-- Python `repr`, used for elements nested inside containers. -/
def pyRepr : Json → List Char
  | .str s => sq :: s ++ [sq]
  | .null => S "None"
  | .bool true => S "True"
  | .bool false => S "False"
  | .num l => l
  | .arr xs => '[' :: pyReprElems xs ++ [']']
  | .obj kvs => '{' :: pyReprKvs kvs ++ ['}']

def pyReprElems : List Json → List Char
  | [] => []
  | [x] => pyRepr x
  | x :: xs => pyRepr x ++ S ", " ++ pyReprElems xs

def pyReprKvs : List (List Char × Json) → List Char
  | [] => []
  | [(k, v)] => sq :: k ++ [sq] ++ S ": " ++ pyRepr v
  | (k, v) :: rest => sq :: k ++ [sq] ++ S ": " ++ pyRepr v ++ S ", " ++ pyReprKvs rest

end

/-- The action-to-symbol mapping of the feedback reconstruction
(cli.py lines 428-435). -/
def actionSymbolMap : List (List Char × List Char) :=
  [(S "create", S "+"), (S "modify", S "~"), (S "delete", S "-"),
   (S "deploy", S "="), (S "nochange", S "*"), (S "ignore", S "x")]

/-- Ordered association-list lookup with arbitrary value type (the symbol
dict's `.get` with default). -/
def slookup (kvs : List (List Char × List Char)) (k : List Char) : Option (List Char) :=
  match kvs with
  | [] => none
  | (k0, v0) :: rest => if k0 = k then some v0 else slookup rest k

/-- The two What-If lines reconstructed for one high-confidence resource
(cli.py lines 427-438): the action symbol (defaulting to `~`) with the
resource name, and the indented summary line. -/
def reconstructLinePair (r : Json) : Except PyErr (List Char × List Char) := do
  let a ← dictGet r (S "action") (.str [])
  let sym ← match a with
    | .str s => pure ((slookup actionSymbolMap (lowerChars s)).getD (S "~"))
    | _ => .error .attrError
  let nm ← pyGetItem r (S "resource_name")
  let sm ← pyGetItem r (S "summary")
  pure (sym ++ [' '] ++ pyStr nm, S "  Summary: " ++ pyStr sm)

/-- Join lines with newline separators (`"\n".join`). -/
def joinLines : List (List Char) → List Char
  | [] => []
  | [l] => l
  | l :: rest => l ++ '\n' :: joinLines rest

/-- The reduced What-If text rebuilt from the high-confidence resources
(cli.py lines 425-440). -/
def build_filtered_whatif (hi : Json) : Except PyErr (List Char) := do
  let rs ← dictGet hi (S "resources") (.arr [])
  let items ← pyIterList rs
  let lines ← items.mapM reconstructLinePair
  pure (joinLines (S "Resource changes:" :: (lines.map (fun p => [p.1, p.2])).flatten))

/-- The trigger test of the feedback re-invocation (cli.py line 413):
`if ci and low_confidence_data.get("resources"):`. -/
def feedback_triggered (ci : Bool) (lo : Json) : Except PyErr Bool := do
  if ci then do
    let r ← dictGet lo (S "resources") .null
    pure (!pyFalsy r)
  else pure false

/-- The merge of the re-invocation's response into the high-confidence data
(cli.py lines 462-477): a failed extraction is caught and leaves the data
unchanged; otherwise `risk_assessment` and `verdict` are overwritten exactly
when present in the newly extracted response. -/
def merge_reinvocation (hi : Json) (respText : List Char) : Except PyErr Json :=
  match BicepAdvisor.extract_json respText with
  | .error _ => .ok hi
  | .ok fd => do
    let hasRA ← pyContains fd (S "risk_assessment")
    let hi ← if hasRA then do
        let v ← pyGetItem fd (S "risk_assessment")
        pySetItem hi (S "risk_assessment") v
      else pure hi
    let hasV ← pyContains fd (S "verdict")
    let hi ← if hasV then do
        let v ← pyGetItem fd (S "verdict")
        pySetItem hi (S "verdict") v
      else pure hi
    pure hi

/-- The feedback step as a whole: when triggered, one re-invocation whose
response text is `modelResp` is merged into the high-confidence data; the
returned flag records whether the external model was called again. -/
def feedback_step (ci : Bool) (hi lo : Json) (modelResp : List Char) :
    Except PyErr (Json × Bool) := do
  let t ← feedback_triggered ci lo
  if t then do
    let hi2 ← merge_reinvocation hi modelResp
    pure (hi2, true)
  else pure (hi, false)

/-- Ordinal rank of a (lower-case) risk level under low < medium < high. -/
def rank (l : List Char) : Nat :=
  if l = S "low" then 0 else if l = S "medium" then 1 else 2

/-- The risk level the claims ascribe to a bucket: lower-cased, any string
outside low/medium/high counted as low, a missing bucket or missing level
counted as low. -/
def claimBucketLevel (b : Option Json) : List Char :=
  match b with
  | some (.obj kvs) =>
    match alookup kvs (S "risk_level") with
    | some (.str s) =>
      if lowerChars s = S "low" || lowerChars s = S "medium" || lowerChars s = S "high"
      then lowerChars s else S "low"
    | _ => S "low"
  | _ => S "low"

/-- The claims' routing rule for one resource: lower-cased `confidence_level`
equal to "low" or "noise". -/
def isLowConfRes (r : Json) : Bool :=
  match r with
  | .obj kvs =>
    match alookup kvs (S "confidence_level") with
    | some (.str s) => lowerChars s = S "low" || lowerChars s = S "noise"
    | _ => false
  | _ => false

/-- The shape the claims presuppose for a risk bucket: absent, or an object
whose `risk_level` is absent or a string. -/
def BucketShape (b : Option Json) : Prop :=
  b = none ∨ ∃ kvs, b = some (Json.obj kvs) ∧
    (alookup kvs (S "risk_level") = none ∨
      ∃ s, alookup kvs (S "risk_level") = some (Json.str s))

/-- A threshold drawn from the three recognized levels. -/
def ThreeLevel (t : List Char) : Prop :=
  t = S "low" ∨ t = S "medium" ∨ t = S "high"

/-- A character that the balanced-brace scan treats as inert outside strings:
not a brace, not a quote, not a backslash. -/
def InertChar (c : Char) : Prop := c ≠ '{' ∧ c ≠ '}' ∧ c ≠ '"' ∧ c ≠ '\\'

instance (c : Char) : Decidable (InertChar c) := by
  unfold InertChar
  infer_instance

/-- A segment of text that the balanced-brace scan passes through without
stopping, entering and leaving at the same positive depth, outside strings:
prepending it to any continuation just prepends it to the scan's result. -/
def Neutral (l : List Char) : Prop :=
  ∀ (d : Nat) (t : List Char), 1 ≤ d →
    findBalanced d false false (l ++ t) = (fun r => l ++ r) <$> findBalanced d false false t

/-- A segment that the scan passes through while inside a string literal. -/
def StrNeutral (l : List Char) : Prop :=
  ∀ (d : Nat) (t : List Char),
    findBalanced d true false (l ++ t) = (fun r => l ++ r) <$> findBalanced d true false t

/-- The risk assessment of the C1 scenario: drift high, operations low. -/
def C1RA : List (List Char × Json) :=
  [(S "drift", Json.obj [(S "risk_level", Json.str (S "high"))]),
   (S "operations", Json.obj [(S "risk_level", Json.str (S "low"))])]

/-- The pure effect of the normalization loop on one resource dict: append the
confidence defaults for whichever of the two keys is missing. -/
def addConfDefaults (r : Json) : Json :=
  match r with
  | .obj kvs =>
    let kvs1 := if (alookup kvs (S "confidence_level")).isSome then kvs
      else kvs ++ [(S "confidence_level", Json.str (S "medium"))]
    let kvs2 := if (alookup kvs1 (S "confidence_reason")).isSome then kvs1
      else kvs1 ++ [(S "confidence_reason", Json.str (S "No confidence assessment provided"))]
    .obj kvs2
  | v => v

end WhatIf

namespace WhatIf

/-! Helper lemmas about the Python-dict model. -/

theorem alookup_insKey (kvs : List (List Char × Json)) (k k2 : List Char) (v : Json) :
    alookup (insKey kvs k v) k2 = if k2 = k then some v else alookup kvs k2 := by
  induction kvs with
  | nil =>
    simp only [insKey, alookup]
    by_cases h : k = k2
    · subst h
      simp
    · rw [if_neg h, if_neg (fun hh => h hh.symm)]
  | cons p rest ih =>
    obtain ⟨k0, v0⟩ := p
    simp only [insKey]
    by_cases h0 : k0 = k
    · subst h0
      simp only [if_pos rfl, alookup]
      by_cases h2 : k0 = k2
      · rw [if_pos h2, if_pos h2.symm]
      · rw [if_neg h2, if_neg (fun hh => h2 hh.symm), if_neg h2]
    · rw [if_neg h0]
      simp only [alookup, ih]
      by_cases h2 : k0 = k2
      · have hk : ¬k2 = k := fun hh => h0 (h2.trans hh)
        rw [if_pos h2, if_neg hk, if_pos h2]
      · rw [if_neg h2]
        by_cases hk : k2 = k
        · rw [if_pos hk, if_pos hk]
        · rw [if_neg hk, if_neg hk, if_neg h2]

theorem insKey_absent (kvs : List (List Char × Json)) (k : List Char) (v : Json)
    (h : alookup kvs k = none) : insKey kvs k v = kvs ++ [(k, v)] := by
  induction kvs with
  | nil => rfl
  | cons p rest ih =>
    obtain ⟨k0, v0⟩ := p
    simp only [alookup] at h
    by_cases h0 : k0 = k
    · rw [if_pos h0] at h
      exact absurd h (by simp)
    · rw [if_neg h0] at h
      simp only [insKey, if_neg h0, List.cons_append, ih h]

theorem dictGet_obj (kvs : List (List Char × Json)) (k : List Char) (dflt : Json) :
    dictGet (.obj kvs) k dflt = .ok ((alookup kvs k).getD dflt) := rfl

/-- C4: when the key `risk_assessment` is absent from the input dict, the gate
returns safe, an empty failed-bucket list and the synthesized low/low
drift/operations assessment, for arbitrary threshold strings, without
raising. -/
theorem c4_gate_missing_assessment (kvs : List (List Char × Json))
    (h : alookup kvs (S "risk_assessment") = none) (t1 t2 t3 : List Char) :
    evaluate_risk_buckets (.obj kvs) t1 t2 t3 =
      .ok (true, [],
        .obj [(S "drift", noAssessmentBucket), (S "operations", noAssessmentBucket)]) := by
  unfold evaluate_risk_buckets
  rw [dictGet_obj, h]
  rfl

/-- Witness for C4: the hypotheses hold at a concrete input (a dict with only
a `resources` key) and concrete unvalidated threshold strings. -/
theorem c4_gate_missing_assessment_witness :
    alookup [(S "resources", Json.arr [])] (S "risk_assessment") = none ∧
    evaluate_risk_buckets (.obj [(S "resources", Json.arr [])]) (S "weird") (S "x") (S "y") =
      .ok (true, [],
        .obj [(S "drift", noAssessmentBucket), (S "operations", noAssessmentBucket)]) :=
  ⟨by decide, c4_gate_missing_assessment [(S "resources", Json.arr [])] (by decide)
    (S "weird") (S "x") (S "y")⟩

/-- C6: `code_bug` evidence — on the input `[1, 2]`, which parses verbatim as
a JSON array, the brace-scan `extract_json` returns that non-object value
directly (its own docstring and annotation promise a dict, and the claim says
a non-object verbatim parse is not returned and the brace scan runs
instead). -/
theorem c6_verbatim_nonobject_returned :
    BicepAdvisor.extract_json (S "[1, 2]") =
      .ok (Json.arr [Json.num (S "1"), Json.num (S "2")]) := rfl

/-- C2: counterexample — the value extracted from `\x7b"resources": [42]\x7d`
(a resources entry that is not an object) makes the normalization step raise
`TypeError` at `"confidence_level" not in resource`, so the downstream core
does not complete without raising on every extractable value. -/
theorem c2_nonobject_resource_raises :
    BicepAdvisor.extract_json (S "\x7b\"resources\": [42]\x7d") =
      .ok (Json.obj [(S "resources", Json.arr [Json.num (S "42")])]) ∧
    normalize_data (Json.obj [(S "resources", Json.arr [Json.num (S "42")])]) =
      .error PyErr.typeError := ⟨rfl, rfl⟩

/-- C3: counterexample — normalizing a response whose single resource is the
empty object yields a resource that carries only the two confidence fields:
`resource_name` (and likewise `resource_type`, `action`, `summary`) is not
added by the normalization step, contradicting the claimed six-field
invariant. -/
theorem c3_normalization_leaves_name_missing :
    normalize_data (Json.obj [(S "resources", Json.arr [Json.obj []])]) =
      .ok (Json.obj [(S "resources", Json.arr [Json.obj
            [(S "confidence_level", Json.str (S "medium")),
             (S "confidence_reason", Json.str (S "No confidence assessment provided"))]]),
          (S "overall_summary", Json.str (S "No summary provided."))]) ∧
    alookup [(S "confidence_level", Json.str (S "medium")),
             (S "confidence_reason", Json.str (S "No confidence assessment provided"))]
      (S "resource_name") = none := ⟨rfl, rfl⟩

/-- C8: counterexample — with CI active, a non-empty low-confidence partition
and no `verdict` anywhere in the original response, the feedback step still
performs the re-invocation (returned flag `true`): the code consults only
`ci` and `low.resources`, never the presence of a verdict. -/
theorem c8_reinvoked_without_verdict :
    alookup [(S "resources", Json.arr [Json.obj [(S "confidence_level", Json.str (S "low"))]]),
             (S "overall_summary", Json.str (S "s"))] (S "verdict") = none ∧
    filter_by_confidence (Json.obj
        [(S "resources", Json.arr [Json.obj [(S "confidence_level", Json.str (S "low"))]]),
         (S "overall_summary", Json.str (S "s"))]) =
      .ok (Json.obj [(S "resources", Json.arr []), (S "overall_summary", Json.str (S "s"))],
           Json.obj [(S "resources", Json.arr [Json.obj [(S "confidence_level", Json.str (S "low"))]]),
                     (S "overall_summary", Json.str [])]) ∧
    feedback_step true
      (Json.obj [(S "resources", Json.arr []), (S "overall_summary", Json.str (S "s"))])
      (Json.obj [(S "resources", Json.arr [Json.obj [(S "confidence_level", Json.str (S "low"))]]),
                 (S "overall_summary", Json.str [])])
      (S "oops") =
      .ok (Json.obj [(S "resources", Json.arr []), (S "overall_summary", Json.str (S "s"))], true) :=
  ⟨rfl, rfl, rfl⟩

/-- C8: amended — the re-invocation is performed iff CI gating is active and
the low-confidence partition's resources list is non-empty; the presence of a
verdict is not consulted.  When the trigger is false, no second model call is
made and the high-confidence data passes on unchanged. -/
theorem c8_trigger_characterization (ci : Bool) (hi : Json) (ls : List Json) (resp : List Char) :
    feedback_triggered ci
      (Json.obj [(S "resources", Json.arr ls), (S "overall_summary", Json.str [])]) =
      .ok (ci && !ls.isEmpty) ∧
    ((ci && !ls.isEmpty) = false →
      feedback_step ci hi
        (Json.obj [(S "resources", Json.arr ls), (S "overall_summary", Json.str [])]) resp =
        .ok (hi, false)) := by
  constructor
  · cases ci <;> rfl
  · intro hfalse
    unfold feedback_step
    rw [show feedback_triggered ci
        (Json.obj [(S "resources", Json.arr ls), (S "overall_summary", Json.str [])]) =
        .ok (ci && !ls.isEmpty) from by cases ci <;> rfl, hfalse]
    rfl

/-- Witness for C8's amended theorem: with CI active but an empty
low-confidence list the trigger is false and the step returns the
high-confidence data unchanged without a call. -/
theorem c8_trigger_characterization_witness :
    feedback_triggered true
      (Json.obj [(S "resources", Json.arr []), (S "overall_summary", Json.str [])]) =
      .ok false ∧
    feedback_step true (Json.obj [])
      (Json.obj [(S "resources", Json.arr []), (S "overall_summary", Json.str [])]) (S "x") =
      .ok (Json.obj [], false) :=
  ⟨(c8_trigger_characterization true (Json.obj []) [] (S "x")).1,
   (c8_trigger_characterization true (Json.obj []) [] (S "x")).2 rfl⟩

/-- C10: counterexample — on `x \x7b"a": \x7b"b": \x7b"c": 1\x7d\x7d\x7d` (an
embedded object nested three brace levels deep) the brace-scan extractor
returns the whole embedded object while the regex extractor returns only the
inner two-level object, so the two extractors are not extensionally
equivalent. -/
theorem c10_extractors_disagree :
    BicepAdvisor.extract_json (S "x \x7b\"a\": \x7b\"b\": \x7b\"c\": 1\x7d\x7d\x7d") =
      .ok (Json.obj [(S "a", Json.obj [(S "b", Json.obj [(S "c", Json.num (S "1"))])])]) ∧
    WhatifExplain.extract_json (S "x \x7b\"a\": \x7b\"b\": \x7b\"c\": 1\x7d\x7d\x7d") =
      .ok (Json.obj [(S "b", Json.obj [(S "c", Json.num (S "1"))])]) ∧
    jeq (Json.obj [(S "a", Json.obj [(S "b", Json.obj [(S "c", Json.num (S "1"))])])])
        (Json.obj [(S "b", Json.obj [(S "c", Json.num (S "1"))])]) = false :=
  ⟨rfl, rfl, rfl⟩

/-- C10: amended — the two extractors agree on every input that parses
verbatim as JSON: both return the verbatim parse. -/
theorem c10_verbatim_agreement (t : List Char) (v : Json) (h : json_loads t = some v) :
    BicepAdvisor.extract_json t = .ok v ∧ WhatifExplain.extract_json t = .ok v := by
  unfold BicepAdvisor.extract_json WhatifExplain.extract_json
  rw [h]
  exact ⟨rfl, rfl⟩

/-- Witness for C10's amended theorem at a concrete verbatim-JSON input. -/
theorem c10_verbatim_agreement_witness :
    json_loads (S "\x7b\"a\": 1\x7d") = some (Json.obj [(S "a", Json.num (S "1"))]) ∧
    (BicepAdvisor.extract_json (S "\x7b\"a\": 1\x7d") =
        .ok (Json.obj [(S "a", Json.num (S "1"))]) ∧
      WhatifExplain.extract_json (S "\x7b\"a\": 1\x7d") =
        .ok (Json.obj [(S "a", Json.num (S "1"))])) :=
  ⟨rfl, c10_verbatim_agreement (S "\x7b\"a\": 1\x7d") (Json.obj [(S "a", Json.num (S "1"))]) rfl⟩

end WhatIf
namespace WhatIf

theorem ebind_ok {ε α β : Type} (a : α) (f : α → Except ε β) :
    (Except.ok a >>= f) = f a := rfl

theorem contains_levels (l : List Char) :
    RISK_LEVELS.contains l =
      (decide (l = S "low") || decide (l = S "medium") || decide (l = S "high")) := by
  simp only [RISK_LEVELS, List.contains_cons, List.contains_nil, beq_iff_eq, Bool.or_false]
  rcases Decidable.em (l = S "low") with h1 | h1 <;>
  rcases Decidable.em (l = S "medium") with h2 | h2 <;>
  rcases Decidable.em (l = S "high") with h3 | h3 <;>
  simp [h1, h2, h3]

theorem bucket_rl_validate (b : Option Json) (hb : BucketShape b) :
    ∃ rl, dictGet (b.getD (Json.obj [])) (S "risk_level") (Json.str (S "low")) = .ok rl ∧
      validate_risk_level rl = .ok (claimBucketLevel b) := by
  rcases hb with rfl | ⟨kvs, rfl, hrl⟩
  · exact ⟨Json.str (S "low"), rfl, rfl⟩
  · rcases hrl with h | ⟨s, h⟩
    · refine ⟨Json.str (S "low"), ?_, ?_⟩
      · rw [show (some (Json.obj kvs)).getD (Json.obj []) = Json.obj kvs from rfl,
          dictGet_obj, h]
        rfl
      · have hc : claimBucketLevel (some (Json.obj kvs)) = S "low" := by
          simp [claimBucketLevel, h]
        rw [hc]
        rfl
    · refine ⟨Json.str s, ?_, ?_⟩
      · rw [show (some (Json.obj kvs)).getD (Json.obj []) = Json.obj kvs from rfl,
          dictGet_obj, h]
        rfl
      · simp only [validate_risk_level, claimBucketLevel, h, contains_levels]

theorem claim_level_three (b : Option Json) (hb : BucketShape b) :
    ThreeLevel (claimBucketLevel b) := by
  rcases hb with rfl | ⟨kvs, rfl, hrl⟩
  · exact Or.inl rfl
  · rcases hrl with h | ⟨s, h⟩
    · simp only [claimBucketLevel, h]
      exact Or.inl rfl
    · simp only [claimBucketLevel, h]
      by_cases h1 : lowerChars s = S "low"
      · simp [ThreeLevel, h1]
      · by_cases h2 : lowerChars s = S "medium"
        · simp [ThreeLevel, h2]
        · by_cases h3 : lowerChars s = S "high"
          · simp [ThreeLevel, h3]
          · simp [ThreeLevel, h1, h2, h3]

theorem exceeds_levels (lvl thr : List Char) (hl : ThreeLevel lvl) (ht : ThreeLevel thr) :
    exceeds_threshold lvl thr = .ok (decide (rank thr ≤ rank lvl)) := by
  rcases hl with rfl | rfl | rfl <;> rcases ht with rfl | rfl | rfl <;> rfl

/-- Characterization of the gate on a present, non-empty risk assessment with
well-shaped buckets and recognized thresholds (shared between claims). -/
theorem gate_eval_characterization (kvs rakvs : List (List Char × Json))
    (hra : alookup kvs (S "risk_assessment") = some (Json.obj rakvs))
    (hne : rakvs ≠ [])
    (hd : BucketShape (alookup rakvs (S "drift")))
    (ho : BucketShape (alookup rakvs (S "operations")))
    (hin : BucketShape (alookup rakvs (S "intent")))
    (t1 t2 t3 : List Char)
    (ht1 : ThreeLevel t1) (ht2 : ThreeLevel t2) (ht3 : ThreeLevel t3) :
    ∃ safe failed,
      evaluate_risk_buckets (Json.obj kvs) t1 t2 t3 = .ok (safe, failed, Json.obj rakvs) ∧
      (safe = true ↔ failed = []) ∧
      (S "drift" ∈ failed ↔ rank t1 ≤ rank (claimBucketLevel (alookup rakvs (S "drift")))) ∧
      (S "intent" ∈ failed ↔ alookup rakvs (S "intent") ≠ none ∧
        rank t2 ≤ rank (claimBucketLevel (alookup rakvs (S "intent")))) ∧
      (S "operations" ∈ failed ↔
        rank t3 ≤ rank (claimBucketLevel (alookup rakvs (S "operations")))) := by
  obtain ⟨drl, hdrl1, hdrl2⟩ := bucket_rl_validate (alookup rakvs (S "drift")) hd
  obtain ⟨orl, horl1, horl2⟩ := bucket_rl_validate (alookup rakvs (S "operations")) ho
  have hfal : pyFalsy (Json.obj rakvs) = false := by
    cases rakvs with
    | nil => exact absurd rfl hne
    | cons a l => rfl
  have hdx := exceeds_levels _ t1 (claim_level_three _ hd) ht1
  have hox := exceeds_levels _ t3 (claim_level_three _ ho) ht3
  rcases hin with hinone | ⟨ikvs, hisome, hirl⟩
  · simp only [hinone]
    have hmain : evaluate_risk_buckets (Json.obj kvs) t1 t2 t3 =
        .ok (((if decide (rank t1 ≤ rank (claimBucketLevel (alookup rakvs (S "drift"))))
                then [S "drift"] else []) ++ [] ++
              (if decide (rank t3 ≤ rank (claimBucketLevel (alookup rakvs (S "operations"))))
                then [S "operations"] else [])).isEmpty,
             (if decide (rank t1 ≤ rank (claimBucketLevel (alookup rakvs (S "drift"))))
                then [S "drift"] else []) ++ [] ++
              (if decide (rank t3 ≤ rank (claimBucketLevel (alookup rakvs (S "operations"))))
                then [S "operations"] else []),
             Json.obj rakvs) := by
      unfold evaluate_risk_buckets
      rw [dictGet_obj, hra]
      simp only [ebind_ok, Option.getD_some]
      rw [if_neg (by simp [hfal])]
      simp only [dictGet_obj, ebind_ok, hinone, Option.getD_none]
      rw [hdrl1]
      simp only [ebind_ok]
      rw [hdrl2]
      simp only [ebind_ok]
      rw [horl1]
      simp only [ebind_ok]
      rw [horl2]
      simp only [ebind_ok]
      rw [hdx]
      simp only [ebind_ok]
      simp only [if_true,
        show (pure [] : Except PyErr (List (List Char))) = Except.ok [] from rfl, ebind_ok]
      rw [hox]
      simp only [ebind_ok]
      rfl
    refine ⟨_, _, hmain, ?_, ?_, ?_, ?_⟩ <;>
    by_cases hp1 : rank t1 ≤ rank (claimBucketLevel (alookup rakvs (S "drift"))) <;>
    by_cases hp3 : rank t3 ≤ rank (claimBucketLevel (alookup rakvs (S "operations"))) <;>
    simp [hp1, hp3,
      show (S "drift" : List Char) ≠ S "operations" from by decide,
      show (S "intent" : List Char) ≠ S "drift" from by decide,
      show (S "intent" : List Char) ≠ S "operations" from by decide,
      show (S "operations" : List Char) ≠ S "drift" from by decide]
  · simp only [hisome]
    have hbs : BucketShape (some (Json.obj ikvs)) := Or.inr ⟨ikvs, rfl, hirl⟩
    have hix := exceeds_levels _ t2 (claim_level_three _ hbs) ht2
    have hmain : evaluate_risk_buckets (Json.obj kvs) t1 t2 t3 =
        .ok (((if decide (rank t1 ≤ rank (claimBucketLevel (alookup rakvs (S "drift"))))
                then [S "drift"] else []) ++
              (if decide (rank t2 ≤ rank (claimBucketLevel (some (Json.obj ikvs))))
                then [S "intent"] else []) ++
              (if decide (rank t3 ≤ rank (claimBucketLevel (alookup rakvs (S "operations"))))
                then [S "operations"] else [])).isEmpty,
             (if decide (rank t1 ≤ rank (claimBucketLevel (alookup rakvs (S "drift"))))
                then [S "drift"] else []) ++
              (if decide (rank t2 ≤ rank (claimBucketLevel (some (Json.obj ikvs))))
                then [S "intent"] else []) ++
              (if decide (rank t3 ≤ rank (claimBucketLevel (alookup rakvs (S "operations"))))
                then [S "operations"] else []),
             Json.obj rakvs) := by
      unfold evaluate_risk_buckets
      rw [dictGet_obj, hra]
      simp only [ebind_ok, Option.getD_some]
      rw [if_neg (by simp [hfal])]
      simp only [dictGet_obj, ebind_ok, hisome, Option.getD_some]
      rw [hdrl1]
      simp only [ebind_ok]
      rw [hdrl2]
      simp only [ebind_ok]
      rw [horl1]
      simp only [ebind_ok]
      rw [horl2]
      simp only [ebind_ok]
      rw [hdx]
      simp only [ebind_ok]
      rw [if_neg (show ¬Json.obj ikvs = Json.null from fun hh => Json.noConfusion hh)]
      have hval : validate_risk_level ((alookup ikvs (S "risk_level")).getD (Json.str (S "low"))) =
          Except.ok (claimBucketLevel (some (Json.obj ikvs))) := by
        rcases hirl with hn | ⟨s, hs⟩
        · rw [hn]
          have hcl : claimBucketLevel (some (Json.obj ikvs)) = S "low" := by
            simp [claimBucketLevel, hn]
          rw [hcl]
          rfl
        · rw [hs]
          simp only [Option.getD_some, validate_risk_level, claimBucketLevel, hs,
            contains_levels]
      rw [hval]
      simp only [ebind_ok]
      rw [hix]
      simp only [ebind_ok,
        show ∀ l : List (List Char), (pure l : Except PyErr (List (List Char))) = Except.ok l
          from fun l => rfl]
      rw [hox]
      simp only [ebind_ok]
      rfl
    refine ⟨_, _, hmain, ?_, ?_, ?_, ?_⟩ <;>
    by_cases hp1 : rank t1 ≤ rank (claimBucketLevel (alookup rakvs (S "drift"))) <;>
    by_cases hp2 : rank t2 ≤ rank (claimBucketLevel (some (Json.obj ikvs))) <;>
    by_cases hp3 : rank t3 ≤ rank (claimBucketLevel (alookup rakvs (S "operations"))) <;>
    simp [hp1, hp2, hp3,
      show (S "drift" : List Char) ≠ S "operations" from by decide,
      show (S "drift" : List Char) ≠ S "intent" from by decide,
      show (S "intent" : List Char) ≠ S "drift" from by decide,
      show (S "intent" : List Char) ≠ S "operations" from by decide,
      show (S "operations" : List Char) ≠ S "drift" from by decide,
      show (S "operations" : List Char) ≠ S "intent" from by decide]


/-- C1: characterization of the gate on a present, non-empty risk assessment
whose buckets have the shapes the claim presupposes and whose thresholds are
drawn from low/medium/high: `drift` and `operations` fail iff their claimed
level's rank is at least the threshold's rank, `intent` fails iff it is
present and its rank is at least its threshold's, and the safe flag is true
iff no bucket failed. -/
theorem c1_gate_bucket_characterization (kvs rakvs : List (List Char × Json))
    (hra : alookup kvs (S "risk_assessment") = some (Json.obj rakvs))
    (hne : rakvs ≠ [])
    (hd : BucketShape (alookup rakvs (S "drift")))
    (ho : BucketShape (alookup rakvs (S "operations")))
    (hin : BucketShape (alookup rakvs (S "intent")))
    (t1 t2 t3 : List Char)
    (ht1 : ThreeLevel t1) (ht2 : ThreeLevel t2) (ht3 : ThreeLevel t3) :
    ∃ safe failed,
      evaluate_risk_buckets (Json.obj kvs) t1 t2 t3 = .ok (safe, failed, Json.obj rakvs) ∧
      (safe = true ↔ failed = []) ∧
      (S "drift" ∈ failed ↔ rank t1 ≤ rank (claimBucketLevel (alookup rakvs (S "drift")))) ∧
      (S "intent" ∈ failed ↔ alookup rakvs (S "intent") ≠ none ∧
        rank t2 ≤ rank (claimBucketLevel (alookup rakvs (S "intent")))) ∧
      (S "operations" ∈ failed ↔
        rank t3 ≤ rank (claimBucketLevel (alookup rakvs (S "operations")))) :=
  gate_eval_characterization kvs rakvs hra hne hd ho hin t1 t2 t3 ht1 ht2 ht3


/-- Witness for C1 at the claim's scenario: drift high, operations low, no
intent bucket, all three thresholds high; in addition the gate's concrete
output there is safe=false with failed buckets exactly `["drift"]`. -/
theorem c1_gate_witness :
    (alookup [(S "risk_assessment", Json.obj C1RA)] (S "risk_assessment") =
        some (Json.obj C1RA) ∧ C1RA ≠ [] ∧ ThreeLevel (S "high")) ∧
    (∃ safe failed,
      evaluate_risk_buckets (Json.obj [(S "risk_assessment", Json.obj C1RA)])
          (S "high") (S "high") (S "high") = .ok (safe, failed, Json.obj C1RA) ∧
      (safe = true ↔ failed = []) ∧
      (S "drift" ∈ failed ↔
        rank (S "high") ≤ rank (claimBucketLevel (alookup C1RA (S "drift")))) ∧
      (S "intent" ∈ failed ↔ alookup C1RA (S "intent") ≠ none ∧
        rank (S "high") ≤ rank (claimBucketLevel (alookup C1RA (S "intent")))) ∧
      (S "operations" ∈ failed ↔
        rank (S "high") ≤ rank (claimBucketLevel (alookup C1RA (S "operations"))))) ∧
    evaluate_risk_buckets (Json.obj [(S "risk_assessment", Json.obj C1RA)])
        (S "high") (S "high") (S "high") = .ok (false, [S "drift"], Json.obj C1RA) :=
  ⟨⟨rfl, by decide, Or.inr (Or.inr rfl)⟩,
   c1_gate_bucket_characterization [(S "risk_assessment", Json.obj C1RA)] C1RA rfl
     (by decide)
     (Or.inr ⟨[(S "risk_level", Json.str (S "high"))], rfl, Or.inr ⟨S "high", rfl⟩⟩)
     (Or.inr ⟨[(S "risk_level", Json.str (S "low"))], rfl, Or.inr ⟨S "low", rfl⟩⟩)
     (Or.inl rfl)
     (S "high") (S "high") (S "high")
     (Or.inr (Or.inr rfl)) (Or.inr (Or.inr rfl)) (Or.inr (Or.inr rfl)),
   rfl⟩

theorem epure_ok {ε α : Type} (a : α) : (pure a : Except ε α) = Except.ok a := rfl

theorem resConfLow_eq (rkvs : List (List Char × Json)) (s : List Char)
    (h2 : alookup rkvs (S "confidence_level") = some (Json.str s)) :
    resConfLow (Json.obj rkvs) = .ok (isLowConfRes (Json.obj rkvs)) := by
  unfold resConfLow isLowConfRes
  rw [dictGet_obj, h2]
  simp only [Option.getD_some, ebind_ok, h2]
  rfl

theorem partition_filter (rs : List Json)
    (hshape : ∀ r ∈ rs, ∃ rkvs s, r = Json.obj rkvs ∧
      alookup rkvs (S "confidence_level") = some (Json.str s)) :
    partitionResources rs =
      .ok (rs.filter (fun r => !isLowConfRes r), rs.filter isLowConfRes) := by
  induction rs with
  | nil => rfl
  | cons r rest ih =>
    obtain ⟨rkvs, s, h1, h2⟩ := hshape r (by simp)
    subst h1
    have hr := resConfLow_eq rkvs s h2
    have ihh := ih (fun x hx => hshape x (by simp [hx]))
    unfold partitionResources
    rw [hr]
    simp only [ebind_ok]
    rw [ihh]
    simp only [ebind_ok]
    by_cases hl : isLowConfRes (Json.obj rkvs) = true
    · simp [hl, List.filter_cons, epure_ok]
    · simp only [Bool.not_eq_true] at hl
      simp [hl, List.filter_cons, epure_ok]

theorem filter_length_partition (p : Json → Bool) (l : List Json) :
    (l.filter (fun x => !p x)).length + (l.filter p).length = l.length := by
  induction l with
  | nil => rfl
  | cons x xs ih =>
    by_cases h : p x = true <;> simp [List.filter_cons, h] <;> omega

/-- The partition equality of `filter_by_confidence` on a normalized response
(shared between claims). -/
theorem filter_by_confidence_eq (kvs : List (List Char × Json)) (rs : List Json)
    (hres : alookup kvs (S "resources") = some (Json.arr rs))
    (hshape : ∀ r ∈ rs, ∃ rkvs s, r = Json.obj rkvs ∧
      alookup rkvs (S "confidence_level") = some (Json.str s)) :
    filter_by_confidence (Json.obj kvs) =
      .ok (Json.obj
            ([(S "resources", Json.arr (rs.filter (fun r => !isLowConfRes r))),
              (S "overall_summary", (alookup kvs (S "overall_summary")).getD (Json.str []))] ++
             (match alookup kvs (S "risk_assessment") with
              | some v => [(S "risk_assessment", v)]
              | none => []) ++
             (match alookup kvs (S "verdict") with
              | some v => [(S "verdict", v)]
              | none => [])),
           Json.obj [(S "resources", Json.arr (rs.filter isLowConfRes)),
                     (S "overall_summary", Json.str [])]) := by
  unfold filter_by_confidence
  rw [dictGet_obj, hres]
  simp only [Option.getD_some, ebind_ok]
  rw [show pyIterList (Json.arr rs) = .ok rs from rfl]
  simp only [ebind_ok]
  rw [partition_filter rs hshape]
  simp only [ebind_ok]
  rw [dictGet_obj]
  simp only [ebind_ok]
  rcases hra2 : alookup kvs (S "risk_assessment") with _ | rav <;>
  rcases hv2 : alookup kvs (S "verdict") with _ | vv <;>
  simp [pyContains, pyGetItem, hra2, hv2, ebind_ok, epure_ok]


/-- C7: characterization of `filter_by_confidence` on a normalized response:
the two outputs are the stable complementary filters of the input resources
by the low/noise rule, the high side carries the source overall summary and,
verbatim when present, `risk_assessment` and `verdict`, the low side carries
an empty summary and never those fields, and every resource goes to exactly
one side. -/
theorem c7_partition_characterization (kvs : List (List Char × Json)) (rs : List Json)
    (hres : alookup kvs (S "resources") = some (Json.arr rs))
    (hshape : ∀ r ∈ rs, ∃ rkvs s, r = Json.obj rkvs ∧
      alookup rkvs (S "confidence_level") = some (Json.str s)) :
    filter_by_confidence (Json.obj kvs) =
      .ok (Json.obj
            ([(S "resources", Json.arr (rs.filter (fun r => !isLowConfRes r))),
              (S "overall_summary", (alookup kvs (S "overall_summary")).getD (Json.str []))] ++
             (match alookup kvs (S "risk_assessment") with
              | some v => [(S "risk_assessment", v)]
              | none => []) ++
             (match alookup kvs (S "verdict") with
              | some v => [(S "verdict", v)]
              | none => [])),
           Json.obj [(S "resources", Json.arr (rs.filter isLowConfRes)),
                     (S "overall_summary", Json.str [])]) ∧
    (rs.filter (fun r => !isLowConfRes r)).length + (rs.filter isLowConfRes).length
      = rs.length :=
  ⟨filter_by_confidence_eq kvs rs hres hshape, filter_length_partition isLowConfRes rs⟩


/-- Witness for C7 at a concrete normalized response: one Low resource, one
high resource, a summary and a verdict; the concrete partition is computed
through the theorem. -/
theorem c7_partition_witness :
    alookup [(S "resources", Json.arr
        [Json.obj [(S "confidence_level", Json.str (S "Low")),
                   (S "resource_name", Json.str (S "a"))],
         Json.obj [(S "confidence_level", Json.str (S "high")),
                   (S "resource_name", Json.str (S "b"))]]),
      (S "overall_summary", Json.str (S "os")), (S "verdict", Json.str (S "v"))]
      (S "resources") = some (Json.arr
        [Json.obj [(S "confidence_level", Json.str (S "Low")),
                   (S "resource_name", Json.str (S "a"))],
         Json.obj [(S "confidence_level", Json.str (S "high")),
                   (S "resource_name", Json.str (S "b"))]]) ∧
    filter_by_confidence (Json.obj
      [(S "resources", Json.arr
        [Json.obj [(S "confidence_level", Json.str (S "Low")),
                   (S "resource_name", Json.str (S "a"))],
         Json.obj [(S "confidence_level", Json.str (S "high")),
                   (S "resource_name", Json.str (S "b"))]]),
       (S "overall_summary", Json.str (S "os")), (S "verdict", Json.str (S "v"))]) =
      .ok (Json.obj
            [(S "resources", Json.arr
               [Json.obj [(S "confidence_level", Json.str (S "high")),
                          (S "resource_name", Json.str (S "b"))]]),
             (S "overall_summary", Json.str (S "os")),
             (S "verdict", Json.str (S "v"))],
           Json.obj
            [(S "resources", Json.arr
               [Json.obj [(S "confidence_level", Json.str (S "Low")),
                          (S "resource_name", Json.str (S "a"))]]),
             (S "overall_summary", Json.str [])]) := by
  constructor
  · rfl
  · have h := (c7_partition_characterization
      [(S "resources", Json.arr
        [Json.obj [(S "confidence_level", Json.str (S "Low")),
                   (S "resource_name", Json.str (S "a"))],
         Json.obj [(S "confidence_level", Json.str (S "high")),
                   (S "resource_name", Json.str (S "b"))]]),
       (S "overall_summary", Json.str (S "os")), (S "verdict", Json.str (S "v"))]
      [Json.obj [(S "confidence_level", Json.str (S "Low")),
                 (S "resource_name", Json.str (S "a"))],
       Json.obj [(S "confidence_level", Json.str (S "high")),
                 (S "resource_name", Json.str (S "b"))]]
      rfl
      (by
        intro r hr
        rcases List.mem_cons.mp hr with rfl | hr2
        · exact ⟨_, _, rfl, rfl⟩
        · rcases List.mem_cons.mp hr2 with rfl | hr3
          · exact ⟨_, _, rfl, rfl⟩
          · exact absurd hr3 (List.not_mem_nil r))).1
    exact h

theorem pyContains_obj (kvs : List (List Char × Json)) (k : List Char) :
    pyContains (.obj kvs) k = .ok (alookup kvs k).isSome := rfl

theorem pyGetItem_obj_some (kvs : List (List Char × Json)) (k : List Char) (v : Json)
    (h : alookup kvs k = some v) : pyGetItem (.obj kvs) k = .ok v := by
  have hh : pyGetItem (.obj kvs) k = (match alookup kvs k with
    | some w => Except.ok w
    | none => Except.error PyErr.keyError) := rfl
  rw [hh, h]

theorem pySetItem_obj (kvs : List (List Char × Json)) (k : List Char) (v : Json) :
    pySetItem (.obj kvs) k v = .ok (.obj (insKey kvs k v)) := rfl

/-- C9: the re-invocation merge is a frame operation: a failed extraction
leaves the high-confidence dict entirely unchanged (and is not an error), and
a successful extraction of an object overwrites at most `risk_assessment` and
`verdict`, each exactly when present in the extracted response, leaving every
other key (in particular `resources` and `overall_summary`) untouched. -/
theorem c9_merge_frame (hkvs : List (List Char × Json)) (resp : List Char) :
    (∀ e, BicepAdvisor.extract_json resp = .error e →
      merge_reinvocation (Json.obj hkvs) resp = .ok (Json.obj hkvs)) ∧
    (∀ fkvs, BicepAdvisor.extract_json resp = .ok (Json.obj fkvs) →
      ∃ hkvs2, merge_reinvocation (Json.obj hkvs) resp = .ok (Json.obj hkvs2) ∧
        (∀ k, k ≠ S "risk_assessment" → k ≠ S "verdict" →
          alookup hkvs2 k = alookup hkvs k) ∧
        (∀ v, alookup fkvs (S "risk_assessment") = some v →
          alookup hkvs2 (S "risk_assessment") = some v) ∧
        (alookup fkvs (S "risk_assessment") = none →
          alookup hkvs2 (S "risk_assessment") = alookup hkvs (S "risk_assessment")) ∧
        (∀ v, alookup fkvs (S "verdict") = some v →
          alookup hkvs2 (S "verdict") = some v) ∧
        (alookup fkvs (S "verdict") = none →
          alookup hkvs2 (S "verdict") = alookup hkvs (S "verdict"))) := by
  constructor
  · intro e he
    unfold merge_reinvocation
    rw [he]
  · intro fkvs hok
    rcases hra : alookup fkvs (S "risk_assessment") with _ | rav <;>
    rcases hv : alookup fkvs (S "verdict") with _ | vv
    · refine ⟨hkvs, ?_, fun k _ _ => rfl, ?_, fun _ => rfl, ?_, fun _ => rfl⟩
      · unfold merge_reinvocation
        rw [hok]
        simp only [pyContains_obj, hra, hv, Option.isSome_none, ebind_ok,
          Bool.false_eq_true, if_false, epure_ok]
      · intro v hvv
        cases hvv
      · intro v hvv
        cases hvv
    · refine ⟨insKey hkvs (S "verdict") vv, ?_, ?_, ?_, ?_, ?_, ?_⟩
      · unfold merge_reinvocation
        rw [hok]
        simp only [pyContains_obj, hra, hv, Option.isSome_none, Option.isSome_some,
          ebind_ok, Bool.false_eq_true, if_false, if_true,
          pyGetItem_obj_some fkvs _ _ hv, pySetItem_obj, epure_ok]
      · intro k _ hk2
        rw [alookup_insKey, if_neg hk2]
      · intro v hvv
        cases hvv
      · intro _
        rw [alookup_insKey,
          if_neg (show ¬(S "risk_assessment") = S "verdict" from by decide)]
      · intro v hvv
        injection hvv with h
        subst h
        rw [alookup_insKey, if_pos rfl]
      · intro hvn
        cases hvn
    · refine ⟨insKey hkvs (S "risk_assessment") rav, ?_, ?_, ?_, ?_, ?_, ?_⟩
      · unfold merge_reinvocation
        rw [hok]
        simp only [pyContains_obj, hra, hv, Option.isSome_none, Option.isSome_some,
          ebind_ok, Bool.false_eq_true, if_false, if_true,
          pyGetItem_obj_some fkvs _ _ hra, pySetItem_obj, epure_ok]
      · intro k hk1 _
        rw [alookup_insKey, if_neg hk1]
      · intro v hvv
        injection hvv with h
        subst h
        rw [alookup_insKey, if_pos rfl]
      · intro hvn
        cases hvn
      · intro v hvv
        cases hvv
      · intro _
        rw [alookup_insKey,
          if_neg (show ¬(S "verdict") = S "risk_assessment" from by decide)]
    · refine ⟨insKey (insKey hkvs (S "risk_assessment") rav) (S "verdict") vv,
        ?_, ?_, ?_, ?_, ?_, ?_⟩
      · unfold merge_reinvocation
        rw [hok]
        simp only [pyContains_obj, hra, hv, Option.isSome_some, ebind_ok, if_true,
          pyGetItem_obj_some fkvs _ _ hra, pyGetItem_obj_some fkvs _ _ hv,
          pySetItem_obj, epure_ok]
      · intro k hk1 hk2
        rw [alookup_insKey, if_neg hk2, alookup_insKey, if_neg hk1]
      · intro v hvv
        injection hvv with h
        subst h
        rw [alookup_insKey,
          if_neg (show ¬(S "risk_assessment") = S "verdict" from by decide),
          alookup_insKey, if_pos rfl]
      · intro hvn
        cases hvn
      · intro v hvv
        injection hvv with h
        subst h
        rw [alookup_insKey, if_pos rfl]
      · intro hvn
        cases hvn


/-- Witness for C9: a concrete re-invocation response carrying only a fresh
`verdict` is merged into concrete high-confidence data through the theorem. -/
theorem c9_merge_frame_witness :
    BicepAdvisor.extract_json (S "\x7b\"verdict\": \x7b\"safe\": true\x7d\x7d") =
      .ok (Json.obj [(S "verdict", Json.obj [(S "safe", Json.bool true)])]) ∧
    (∃ hkvs2, merge_reinvocation
        (Json.obj [(S "resources", Json.arr []), (S "risk_assessment", Json.str (S "old"))])
        (S "\x7b\"verdict\": \x7b\"safe\": true\x7d\x7d") = .ok (Json.obj hkvs2) ∧
      (∀ k, k ≠ S "risk_assessment" → k ≠ S "verdict" →
        alookup hkvs2 k =
          alookup [(S "resources", Json.arr []), (S "risk_assessment", Json.str (S "old"))] k) ∧
      (∀ v, alookup [(S "verdict", Json.obj [(S "safe", Json.bool true)])]
          (S "risk_assessment") = some v →
        alookup hkvs2 (S "risk_assessment") = some v) ∧
      (alookup [(S "verdict", Json.obj [(S "safe", Json.bool true)])]
          (S "risk_assessment") = none →
        alookup hkvs2 (S "risk_assessment") =
          alookup [(S "resources", Json.arr []), (S "risk_assessment", Json.str (S "old"))]
            (S "risk_assessment")) ∧
      (∀ v, alookup [(S "verdict", Json.obj [(S "safe", Json.bool true)])]
          (S "verdict") = some v →
        alookup hkvs2 (S "verdict") = some v) ∧
      (alookup [(S "verdict", Json.obj [(S "safe", Json.bool true)])] (S "verdict") = none →
        alookup hkvs2 (S "verdict") =
          alookup [(S "resources", Json.arr []), (S "risk_assessment", Json.str (S "old"))]
            (S "verdict"))) :=
  ⟨rfl,
   (c9_merge_frame [(S "resources", Json.arr []), (S "risk_assessment", Json.str (S "old"))]
      (S "\x7b\"verdict\": \x7b\"safe\": true\x7d\x7d")).2
     [(S "verdict", Json.obj [(S "safe", Json.bool true)])] rfl⟩

theorem alookup_append_of_none {α : Type} (kvs1 kvs2 : List (List Char × α)) (k : List Char)
    (h : alookup kvs1 k = none) : alookup (kvs1 ++ kvs2) k = alookup kvs2 k := by
  induction kvs1 with
  | nil => rfl
  | cons p rest ih =>
    obtain ⟨k0, v0⟩ := p
    simp only [alookup] at h ⊢
    by_cases h0 : k0 = k
    · rw [if_pos h0] at h
      cases h
    · rw [if_neg h0] at h ⊢
      exact ih h

theorem alookup_append_of_some {α : Type} (kvs1 kvs2 : List (List Char × α)) (k : List Char)
    (v : α) (h : alookup kvs1 k = some v) : alookup (kvs1 ++ kvs2) k = some v := by
  induction kvs1 with
  | nil => cases h
  | cons p rest ih =>
    obtain ⟨k0, v0⟩ := p
    simp only [alookup] at h ⊢
    by_cases h0 : k0 = k
    · rw [if_pos h0] at h ⊢
      exact h
    · rw [if_neg h0] at h ⊢
      exact ih h

/-- The normalization loop body agrees with its pure description. -/
theorem normResource_eq_addConfDefaults (rkvs : List (List Char × Json)) :
    normResource (Json.obj rkvs) = .ok (addConfDefaults (Json.obj rkvs)) := by
  unfold normResource addConfDefaults
  rcases hcl : alookup rkvs (S "confidence_level") with _ | clv
  · simp only [pyContains_obj, hcl, Option.isSome_none, ebind_ok, Bool.false_eq_true,
      if_false, pySetItem_obj, insKey_absent rkvs _ _ hcl, epure_ok]
    rcases hcr : alookup rkvs (S "confidence_reason") with _ | crv
    · have hcr2 : alookup (rkvs ++ [(S "confidence_level", Json.str (S "medium"))])
          (S "confidence_reason") = none := by
        rw [alookup_append_of_none _ _ _ hcr]
        rfl
      simp only [pyContains_obj, hcr2, Option.isSome_none, ebind_ok, Bool.false_eq_true,
        if_false, pySetItem_obj, insKey_absent _ _ _ hcr2, epure_ok, hcr, Option.isSome_none]
    · have hcr2 : alookup (rkvs ++ [(S "confidence_level", Json.str (S "medium"))])
          (S "confidence_reason") = some crv := alookup_append_of_some _ _ _ _ hcr
      simp only [pyContains_obj, hcr2, Option.isSome_some, ebind_ok, if_true, epure_ok,
        hcr]
  · simp only [pyContains_obj, hcl, Option.isSome_some, ebind_ok, if_true, epure_ok]
    rcases hcr : alookup rkvs (S "confidence_reason") with _ | crv
    · simp only [pyContains_obj, hcr, Option.isSome_none, ebind_ok, Bool.false_eq_true,
        if_false, pySetItem_obj, insKey_absent _ _ _ hcr, epure_ok]
    · simp only [pyContains_obj, hcr, Option.isSome_some, ebind_ok, if_true, epure_ok]

theorem mapM_normResource (rs : List Json)
    (hshape : ∀ r ∈ rs, ∃ rkvs, r = Json.obj rkvs) :
    rs.mapM normResource = .ok (rs.map addConfDefaults) := by
  induction rs with
  | nil => rfl
  | cons r rest ih =>
    obtain ⟨rkvs, rfl⟩ := hshape r (by simp)
    rw [List.mapM_cons, normResource_eq_addConfDefaults, List.map_cons]
    simp only [ebind_ok]
    rw [ih (fun x hx => hshape x (by simp [hx]))]
    simp only [ebind_ok, epure_ok]
theorem alookup_singleton_ne {α : Type} (k0 k : List Char) (v : α) (h : k ≠ k0) :
    alookup [(k0, v)] k = none := by
  simp only [alookup]
  rw [if_neg (fun hh => h hh.symm)]

theorem addConfDefaults_props (rkvs : List (List Char × Json)) :
    ∃ rkvs2, addConfDefaults (Json.obj rkvs) = Json.obj rkvs2 ∧
      alookup rkvs2 (S "confidence_level") =
        some ((alookup rkvs (S "confidence_level")).getD (Json.str (S "medium"))) ∧
      alookup rkvs2 (S "confidence_reason") =
        some ((alookup rkvs (S "confidence_reason")).getD
          (Json.str (S "No confidence assessment provided"))) ∧
      (∀ k, k ≠ S "confidence_level" → k ≠ S "confidence_reason" →
        alookup rkvs2 k = alookup rkvs k) := by
  unfold addConfDefaults
  rcases hcl : alookup rkvs (S "confidence_level") with _ | clv
  · have hcl1 : alookup (rkvs ++ [(S "confidence_level", Json.str (S "medium"))])
        (S "confidence_level") = some (Json.str (S "medium")) := by
      rw [alookup_append_of_none rkvs _ _ hcl]
      rfl
    simp only [hcl, Option.isSome_none, Bool.false_eq_true, if_false]
    rcases hcr : alookup rkvs (S "confidence_reason") with _ | crv
    · have hcr1 : alookup (rkvs ++ [(S "confidence_level", Json.str (S "medium"))])
          (S "confidence_reason") = none := by
        rw [alookup_append_of_none rkvs _ _ hcr]
        exact alookup_singleton_ne _ _ _ (by decide)
      simp only [hcr1, Option.isSome_none, Bool.false_eq_true, if_false]
      refine ⟨_, rfl, ?_, ?_, ?_⟩
      · rw [alookup_append_of_some _ _ _ _ hcl1]
        rfl
      · rw [alookup_append_of_none _ _ _ hcr1]
        rfl
      · intro k hk1 hk2
        rcases hk : alookup rkvs k with _ | kv
        · rw [alookup_append_of_none _ _ _
            (by rw [alookup_append_of_none _ _ _ hk]
                exact alookup_singleton_ne _ _ _ hk1)]
          exact alookup_singleton_ne _ _ _ hk2
        · exact alookup_append_of_some _ _ _ _ (alookup_append_of_some _ _ _ _ hk)
    · have hcr1 : alookup (rkvs ++ [(S "confidence_level", Json.str (S "medium"))])
          (S "confidence_reason") = some crv := alookup_append_of_some _ _ _ _ hcr
      simp only [hcr1, Option.isSome_some, if_true]
      refine ⟨_, rfl, ?_, ?_, ?_⟩
      · rw [hcl1]
        rfl
      · rw [hcr1]
        rfl
      · intro k hk1 hk2
        rcases hk : alookup rkvs k with _ | kv
        · rw [alookup_append_of_none _ _ _ hk]
          exact alookup_singleton_ne _ _ _ hk1
        · exact alookup_append_of_some _ _ _ _ hk
  · simp only [hcl, Option.isSome_some, if_true]
    rcases hcr : alookup rkvs (S "confidence_reason") with _ | crv
    · simp only [hcr, Option.isSome_none, Bool.false_eq_true, if_false]
      refine ⟨_, rfl, ?_, ?_, ?_⟩
      · rw [alookup_append_of_some _ _ _ _ hcl]
        rfl
      · rw [alookup_append_of_none _ _ _ hcr]
        rfl
      · intro k hk1 hk2
        rcases hk : alookup rkvs k with _ | kv
        · rw [alookup_append_of_none _ _ _ hk]
          exact alookup_singleton_ne _ _ _ hk2
        · exact alookup_append_of_some _ _ _ _ hk
    · simp only [hcr, Option.isSome_some, if_true]
      exact ⟨rkvs, rfl, by rw [hcl]; rfl, by rw [hcr]; rfl, fun k _ _ => rfl⟩
/-- C3: amended — normalization guarantees exactly the confidence defaults:
the resources become their `addConfDefaults` images (missing
`confidence_level` becomes "medium", missing `confidence_reason` becomes the
fixed fallback, all other keys untouched — in particular `resource_name`,
`resource_type`, `action` and `summary` are not defaulted here), and a
missing `overall_summary` is supplied at the top level. -/
theorem c3_normalization_confidence_defaults (kvs : List (List Char × Json)) (rs : List Json)
    (hres : alookup kvs (S "resources") = some (Json.arr rs))
    (hshape : ∀ r ∈ rs, ∃ rkvs, r = Json.obj rkvs) :
    ∃ kvs2, normalize_data (Json.obj kvs) = .ok (Json.obj kvs2) ∧
      alookup kvs2 (S "resources") = some (Json.arr (rs.map addConfDefaults)) ∧
      (alookup kvs2 (S "overall_summary")).isSome = true ∧
      ∀ r ∈ rs, ∀ rkvs, r = Json.obj rkvs →
        ∃ rkvs2, addConfDefaults r = Json.obj rkvs2 ∧
          alookup rkvs2 (S "confidence_level") =
            some ((alookup rkvs (S "confidence_level")).getD (Json.str (S "medium"))) ∧
          alookup rkvs2 (S "confidence_reason") =
            some ((alookup rkvs (S "confidence_reason")).getD
              (Json.str (S "No confidence assessment provided"))) ∧
          (∀ k, k ≠ S "confidence_level" → k ≠ S "confidence_reason" →
            alookup rkvs2 k = alookup rkvs k) := by
  have hper : ∀ r ∈ rs, ∀ rkvs, r = Json.obj rkvs →
      ∃ rkvs2, addConfDefaults r = Json.obj rkvs2 ∧
        alookup rkvs2 (S "confidence_level") =
          some ((alookup rkvs (S "confidence_level")).getD (Json.str (S "medium"))) ∧
        alookup rkvs2 (S "confidence_reason") =
          some ((alookup rkvs (S "confidence_reason")).getD
            (Json.str (S "No confidence assessment provided"))) ∧
        (∀ k, k ≠ S "confidence_level" → k ≠ S "confidence_reason" →
          alookup rkvs2 k = alookup rkvs k) := by
    intro r _ rkvs hrk
    subst hrk
    exact addConfDefaults_props rkvs
  unfold normalize_data
  have h1 : pyContains (Json.obj kvs) (S "resources") = .ok true := by
    rw [pyContains_obj, hres]
    rfl
  rw [h1]
  simp only [ebind_ok, epure_ok, if_true]
  rcases hos : alookup kvs (S "overall_summary") with _ | osv
  · have h2 : pyContains (Json.obj kvs) (S "overall_summary") = .ok false := by
      rw [pyContains_obj, hos]
      rfl
    rw [h2]
    simp only [ebind_ok, epure_ok, Bool.false_eq_true, if_false, pySetItem_obj,
      insKey_absent _ _ _ hos, ebind_ok]
    have h3 : alookup (kvs ++ [(S "overall_summary", Json.str (S "No summary provided."))])
        (S "resources") = some (Json.arr rs) := alookup_append_of_some _ _ _ _ hres
    rw [dictGet_obj, h3]
    simp only [Option.getD_some, ebind_ok, epure_ok]
    rw [mapM_normResource rs hshape]
    simp only [ebind_ok, epure_ok, pySetItem_obj]
    refine ⟨_, rfl, ?_, ?_, hper⟩
    · rw [alookup_insKey, if_pos rfl]
    · rw [alookup_insKey,
        if_neg (show ¬(S "overall_summary") = S "resources" from by decide)]
      rw [alookup_append_of_none _ _ _ hos]
      rfl
  · have h2 : pyContains (Json.obj kvs) (S "overall_summary") = .ok true := by
      rw [pyContains_obj, hos]
      rfl
    rw [h2]
    simp only [ebind_ok, epure_ok, if_true]
    rw [dictGet_obj, hres]
    simp only [Option.getD_some, ebind_ok, epure_ok]
    rw [mapM_normResource rs hshape]
    simp only [ebind_ok, epure_ok, pySetItem_obj]
    refine ⟨_, rfl, ?_, ?_, hper⟩
    · rw [alookup_insKey, if_pos rfl]
    · rw [alookup_insKey,
        if_neg (show ¬(S "overall_summary") = S "resources" from by decide), hos]
      rfl


/-- Witness for C3's amended theorem: a response whose single resource has
only an `action` key and whose summary is missing, normalized through the
theorem. -/
theorem c3_normalization_witness :
    alookup [(S "resources", Json.arr [Json.obj [(S "action", Json.str (S "Create"))]])]
      (S "resources") = some (Json.arr [Json.obj [(S "action", Json.str (S "Create"))]]) ∧
    (∃ kvs2, normalize_data (Json.obj
        [(S "resources", Json.arr [Json.obj [(S "action", Json.str (S "Create"))]])]) =
        .ok (Json.obj kvs2) ∧
      alookup kvs2 (S "resources") =
        some (Json.arr ([Json.obj [(S "action", Json.str (S "Create"))]].map addConfDefaults)) ∧
      (alookup kvs2 (S "overall_summary")).isSome = true ∧
      ∀ r ∈ [Json.obj [(S "action", Json.str (S "Create"))]], ∀ rkvs, r = Json.obj rkvs →
        ∃ rkvs2, addConfDefaults r = Json.obj rkvs2 ∧
          alookup rkvs2 (S "confidence_level") =
            some ((alookup rkvs (S "confidence_level")).getD (Json.str (S "medium"))) ∧
          alookup rkvs2 (S "confidence_reason") =
            some ((alookup rkvs (S "confidence_reason")).getD
              (Json.str (S "No confidence assessment provided"))) ∧
          (∀ k, k ≠ S "confidence_level" → k ≠ S "confidence_reason" →
            alookup rkvs2 k = alookup rkvs k)) :=
  ⟨rfl, c3_normalization_confidence_defaults
    [(S "resources", Json.arr [Json.obj [(S "action", Json.str (S "Create"))]])]
    [Json.obj [(S "action", Json.str (S "Create"))]] rfl
    (by
      intro r hr
      rcases List.mem_cons.mp hr with rfl | hr2
      · exact ⟨_, rfl⟩
      · exact absurd hr2 (List.not_mem_nil r))⟩

/-- Normalization on a well-shaped input: resources become their
`addConfDefaults` images and every other key except `overall_summary` is
untouched. -/
theorem normalize_shape (kvs : List (List Char × Json)) (rs : List Json)
    (hres : alookup kvs (S "resources") = some (Json.arr rs))
    (hshape : ∀ r ∈ rs, ∃ rkvs, r = Json.obj rkvs) :
    ∃ kvs2, normalize_data (Json.obj kvs) = .ok (Json.obj kvs2) ∧
      alookup kvs2 (S "resources") = some (Json.arr (rs.map addConfDefaults)) ∧
      (∀ k, k ≠ S "resources" → k ≠ S "overall_summary" →
        alookup kvs2 k = alookup kvs k) := by
  unfold normalize_data
  have h1 : pyContains (Json.obj kvs) (S "resources") = .ok true := by
    rw [pyContains_obj, hres]
    rfl
  rw [h1]
  simp only [ebind_ok, epure_ok, if_true]
  rcases hos : alookup kvs (S "overall_summary") with _ | osv
  · have h2 : pyContains (Json.obj kvs) (S "overall_summary") = .ok false := by
      rw [pyContains_obj, hos]
      rfl
    rw [h2]
    simp only [ebind_ok, epure_ok, Bool.false_eq_true, if_false, pySetItem_obj,
      insKey_absent _ _ _ hos, ebind_ok]
    have h3 : alookup (kvs ++ [(S "overall_summary", Json.str (S "No summary provided."))])
        (S "resources") = some (Json.arr rs) := alookup_append_of_some _ _ _ _ hres
    rw [dictGet_obj, h3]
    simp only [Option.getD_some, ebind_ok, epure_ok]
    rw [mapM_normResource rs hshape]
    simp only [ebind_ok, epure_ok, pySetItem_obj]
    refine ⟨_, rfl, ?_, ?_⟩
    · rw [alookup_insKey, if_pos rfl]
    · intro k hk1 hk2
      rw [alookup_insKey, if_neg hk1]
      rcases hk : alookup kvs k with _ | kv
      · rw [alookup_append_of_none _ _ _ hk]
        exact alookup_singleton_ne _ _ _ hk2
      · exact alookup_append_of_some _ _ _ _ hk
  · have h2 : pyContains (Json.obj kvs) (S "overall_summary") = .ok true := by
      rw [pyContains_obj, hos]
      rfl
    rw [h2]
    simp only [ebind_ok, epure_ok, if_true]
    rw [dictGet_obj, hres]
    simp only [Option.getD_some, ebind_ok, epure_ok]
    rw [mapM_normResource rs hshape]
    simp only [ebind_ok, epure_ok, pySetItem_obj]
    refine ⟨_, rfl, ?_, ?_⟩
    · rw [alookup_insKey, if_pos rfl]
    · intro k hk1 _
      rw [alookup_insKey, if_neg hk1]

/-- The gate succeeds on any dict whose risk assessment is absent or
well-shaped, for recognized thresholds. -/
theorem evaluate_ok_of_shapes (hkvs : List (List Char × Json)) (t1 t2 t3 : List Char)
    (hra : alookup hkvs (S "risk_assessment") = none ∨
      ∃ rakvs, alookup hkvs (S "risk_assessment") = some (Json.obj rakvs) ∧
        BucketShape (alookup rakvs (S "drift")) ∧
        BucketShape (alookup rakvs (S "operations")) ∧
        BucketShape (alookup rakvs (S "intent")))
    (ht1 : ThreeLevel t1) (ht2 : ThreeLevel t2) (ht3 : ThreeLevel t3) :
    ∃ res, evaluate_risk_buckets (Json.obj hkvs) t1 t2 t3 = .ok res := by
  rcases hra with h | ⟨rakvs, h, hd, ho, hin⟩
  · exact ⟨_, by unfold evaluate_risk_buckets; rw [dictGet_obj, h]; rfl⟩
  · match rakvs, h, hd, ho, hin with
    | [], h, _, _, _ =>
      exact ⟨_, by unfold evaluate_risk_buckets; rw [dictGet_obj, h]; rfl⟩
    | p :: rest, h, hd, ho, hin =>
      obtain ⟨safe, failed, heq, _⟩ := gate_eval_characterization hkvs (p :: rest) h
        (by simp) hd ho hin t1 t2 t3 ht1 ht2 ht3
      exact ⟨_, heq⟩

theorem reconstructLinePair_ok (rkvs : List (List Char × Json))
    (hn : ∃ v, alookup rkvs (S "resource_name") = some v)
    (hs : ∃ v, alookup rkvs (S "summary") = some v)
    (ha : alookup rkvs (S "action") = none ∨
      ∃ s, alookup rkvs (S "action") = some (Json.str s)) :
    ∃ p, reconstructLinePair (Json.obj rkvs) = .ok p := by
  obtain ⟨nv, hn⟩ := hn
  obtain ⟨sv, hs⟩ := hs
  unfold reconstructLinePair
  rcases ha with ha | ⟨s, ha⟩
  · refine ⟨(S "~" ++ [' '] ++ pyStr nv, S "  Summary: " ++ pyStr sv), ?_⟩
    rw [dictGet_obj, ha]
    simp only [Option.getD_none, ebind_ok, epure_ok,
      pyGetItem_obj_some rkvs _ _ hn, pyGetItem_obj_some rkvs _ _ hs]
    rfl
  · refine ⟨((slookup actionSymbolMap (lowerChars s)).getD (S "~") ++ [' '] ++ pyStr nv,
      S "  Summary: " ++ pyStr sv), ?_⟩
    rw [dictGet_obj, ha]
    simp only [Option.getD_some, ebind_ok, epure_ok,
      pyGetItem_obj_some rkvs _ _ hn, pyGetItem_obj_some rkvs _ _ hs]

theorem mapM_reconstruct_ok (rs : List Json)
    (hsh : ∀ r ∈ rs, ∃ rkvs, r = Json.obj rkvs ∧
      (∃ v, alookup rkvs (S "resource_name") = some v) ∧
      (∃ v, alookup rkvs (S "summary") = some v) ∧
      (alookup rkvs (S "action") = none ∨
        ∃ s, alookup rkvs (S "action") = some (Json.str s))) :
    ∃ ps, rs.mapM reconstructLinePair = .ok ps := by
  induction rs with
  | nil => exact ⟨[], rfl⟩
  | cons r rest ih =>
    obtain ⟨rkvs, hrk, hn, hs2, ha⟩ := hsh r (by simp)
    obtain ⟨p, hp⟩ := reconstructLinePair_ok rkvs hn hs2 ha
    obtain ⟨ps, hps⟩ := ih (fun x hx => hsh x (by simp [hx]))
    subst hrk
    refine ⟨p :: ps, ?_⟩
    rw [List.mapM_cons, hp]
    simp only [ebind_ok]
    rw [hps]
    simp only [ebind_ok, epure_ok]

theorem build_whatif_ok (hkvs : List (List Char × Json)) (rs : List Json)
    (hres : alookup hkvs (S "resources") = some (Json.arr rs))
    (hsh : ∀ r ∈ rs, ∃ rkvs, r = Json.obj rkvs ∧
      (∃ v, alookup rkvs (S "resource_name") = some v) ∧
      (∃ v, alookup rkvs (S "summary") = some v) ∧
      (alookup rkvs (S "action") = none ∨
        ∃ s, alookup rkvs (S "action") = some (Json.str s))) :
    ∃ t, build_filtered_whatif (Json.obj hkvs) = .ok t := by
  obtain ⟨ps, hps⟩ := mapM_reconstruct_ok rs hsh
  refine ⟨joinLines (S "Resource changes:" :: (ps.map (fun p => [p.1, p.2])).flatten), ?_⟩
  unfold build_filtered_whatif
  rw [dictGet_obj, hres]
  simp only [Option.getD_some, ebind_ok]
  rw [show pyIterList (Json.arr rs) = .ok rs from rfl]
  simp only [ebind_ok]
  rw [hps]
  simp only [ebind_ok, epure_ok]
theorem alookup_vmatch_ra (o : Option Json) :
    alookup (match o with
      | some v => [(S "verdict", v)]
      | none => []) (S "risk_assessment") = none := by
  rcases o with _ | v
  · rfl
  · exact alookup_singleton_ne _ _ _ (by decide)

/-- C2: amended — on extracted values of the shapes the data model describes
(resources an array of objects carrying `resource_name` and `summary`, with
`action` and `confidence_level` absent or strings; `risk_assessment` absent
or an object of well-shaped buckets; recognized thresholds) the downstream
core — normalization, confidence partitioning, the risk gate on the
high-confidence data, and the feedback reconstruction of the reduced What-If
text — completes without raising. -/
theorem c2_core_total (kvs : List (List Char × Json)) (rs : List Json) (t1 t2 t3 : List Char)
    (hres : alookup kvs (S "resources") = some (Json.arr rs))
    (hrs : ∀ r ∈ rs, ∃ rkvs, r = Json.obj rkvs ∧
      (∃ v, alookup rkvs (S "resource_name") = some v) ∧
      (∃ v, alookup rkvs (S "summary") = some v) ∧
      (alookup rkvs (S "action") = none ∨
        ∃ s, alookup rkvs (S "action") = some (Json.str s)) ∧
      (alookup rkvs (S "confidence_level") = none ∨
        ∃ s, alookup rkvs (S "confidence_level") = some (Json.str s)))
    (hrad : alookup kvs (S "risk_assessment") = none ∨
      ∃ rakvs, alookup kvs (S "risk_assessment") = some (Json.obj rakvs) ∧
        BucketShape (alookup rakvs (S "drift")) ∧
        BucketShape (alookup rakvs (S "operations")) ∧
        BucketShape (alookup rakvs (S "intent")))
    (ht1 : ThreeLevel t1) (ht2 : ThreeLevel t2) (ht3 : ThreeLevel t3) :
    ∃ d hi lo gate btext,
      normalize_data (Json.obj kvs) = .ok d ∧
      filter_by_confidence d = .ok (hi, lo) ∧
      evaluate_risk_buckets hi t1 t2 t3 = .ok gate ∧
      build_filtered_whatif hi = .ok btext := by
  obtain ⟨kvs2, hnorm, hres2, hframe⟩ :=
    normalize_shape kvs rs hres (fun r hr => ((hrs r hr).imp (fun rkvs h => h.1)))
  have hra2 : alookup kvs2 (S "risk_assessment") = alookup kvs (S "risk_assessment") :=
    hframe _ (by decide) (by decide)
  have hsh2 : ∀ r ∈ rs.map addConfDefaults, ∃ rkvs s, r = Json.obj rkvs ∧
      alookup rkvs (S "confidence_level") = some (Json.str s) := by
    intro r hr
    obtain ⟨r0, hr0, rfl⟩ := List.mem_map.mp hr
    obtain ⟨rkvs0, rfl, _, _, _, hcl⟩ := hrs r0 hr0
    obtain ⟨rkvs2x, heq, hclv, _, _⟩ := addConfDefaults_props rkvs0
    rcases hcl with h | ⟨s, h⟩
    · exact ⟨rkvs2x, S "medium", heq, by rw [hclv, h]; rfl⟩
    · exact ⟨rkvs2x, s, heq, by rw [hclv, h]; rfl⟩
  have hfilter := filter_by_confidence_eq kvs2 (rs.map addConfDefaults) hres2 hsh2
  have hsh3 : ∀ r ∈ (rs.map addConfDefaults).filter (fun r => !isLowConfRes r),
      ∃ rkvs, r = Json.obj rkvs ∧
        (∃ v, alookup rkvs (S "resource_name") = some v) ∧
        (∃ v, alookup rkvs (S "summary") = some v) ∧
        (alookup rkvs (S "action") = none ∨
          ∃ s, alookup rkvs (S "action") = some (Json.str s)) := by
    intro r hr
    obtain ⟨r0, hr0, rfl⟩ := List.mem_map.mp (List.mem_filter.mp hr).1
    obtain ⟨rkvs0, rfl, hn, hs2, ha, _⟩ := hrs r0 hr0
    obtain ⟨rkvs2x, heq, _, _, hfr⟩ := addConfDefaults_props rkvs0
    refine ⟨rkvs2x, heq, ?_, ?_, ?_⟩
    · obtain ⟨v, hv⟩ := hn
      exact ⟨v, by rw [hfr _ (by decide) (by decide)]; exact hv⟩
    · obtain ⟨v, hv⟩ := hs2
      exact ⟨v, by rw [hfr _ (by decide) (by decide)]; exact hv⟩
    · rcases ha with h | ⟨s, h⟩
      · exact Or.inl (by rw [hfr _ (by decide) (by decide)]; exact h)
      · exact Or.inr ⟨s, by rw [hfr _ (by decide) (by decide)]; exact h⟩
  rcases hrad with hraN | ⟨rakvs, hraS, hd, ho, hin⟩
  · rw [hraN] at hra2
    rw [hra2] at hfilter
    obtain ⟨gres, hgate⟩ := evaluate_ok_of_shapes
      ([(S "resources", Json.arr ((rs.map addConfDefaults).filter (fun r => !isLowConfRes r))),
        (S "overall_summary", (alookup kvs2 (S "overall_summary")).getD (Json.str []))] ++
        [] ++
        (match alookup kvs2 (S "verdict") with
          | some v => [(S "verdict", v)]
          | none => []))
      t1 t2 t3
      (Or.inl (by
        simp only [List.append_nil, List.cons_append, List.nil_append, alookup]
        rw [if_neg (show ¬(S "resources") = S "risk_assessment" from by decide),
          if_neg (show ¬(S "overall_summary") = S "risk_assessment" from by decide)]
        exact alookup_vmatch_ra _))
      ht1 ht2 ht3
    obtain ⟨bt, hbuild⟩ := build_whatif_ok
      ([(S "resources", Json.arr ((rs.map addConfDefaults).filter (fun r => !isLowConfRes r))),
        (S "overall_summary", (alookup kvs2 (S "overall_summary")).getD (Json.str []))] ++
        [] ++
        (match alookup kvs2 (S "verdict") with
          | some v => [(S "verdict", v)]
          | none => []))
      ((rs.map addConfDefaults).filter (fun r => !isLowConfRes r))
      (by rfl)
      hsh3
    exact ⟨_, _, _, _, _, hnorm, hfilter, hgate, hbuild⟩
  · rw [hraS] at hra2
    rw [hra2] at hfilter
    obtain ⟨gres, hgate⟩ := evaluate_ok_of_shapes
      ([(S "resources", Json.arr ((rs.map addConfDefaults).filter (fun r => !isLowConfRes r))),
        (S "overall_summary", (alookup kvs2 (S "overall_summary")).getD (Json.str []))] ++
        [(S "risk_assessment", Json.obj rakvs)] ++
        (match alookup kvs2 (S "verdict") with
          | some v => [(S "verdict", v)]
          | none => []))
      t1 t2 t3
      (Or.inr ⟨rakvs, by
        simp only [List.cons_append, List.nil_append, alookup]
        rw [if_neg (show ¬(S "resources") = S "risk_assessment" from by decide),
          if_neg (show ¬(S "overall_summary") = S "risk_assessment" from by decide)]
        rfl, hd, ho, hin⟩)
      ht1 ht2 ht3
    obtain ⟨bt, hbuild⟩ := build_whatif_ok
      ([(S "resources", Json.arr ((rs.map addConfDefaults).filter (fun r => !isLowConfRes r))),
        (S "overall_summary", (alookup kvs2 (S "overall_summary")).getD (Json.str []))] ++
        [(S "risk_assessment", Json.obj rakvs)] ++
        (match alookup kvs2 (S "verdict") with
          | some v => [(S "verdict", v)]
          | none => []))
      ((rs.map addConfDefaults).filter (fun r => !isLowConfRes r))
      (by rfl)
      hsh3
    exact ⟨_, _, _, _, _, hnorm, hfilter, hgate, hbuild⟩


/-- Witness for C2's amended theorem at a concrete response: one low-confidence
resource with name, summary, action, and a drift-high/operations-low risk
assessment, with all thresholds high. -/
theorem c2_core_total_witness :
    alookup [(S "resources", Json.arr [Json.obj
        [(S "resource_name", Json.str (S "vm1")), (S "summary", Json.str (S "new")),
         (S "action", Json.str (S "Create")), (S "confidence_level", Json.str (S "low"))]]),
      (S "risk_assessment", Json.obj C1RA)] (S "resources") =
      some (Json.arr [Json.obj
        [(S "resource_name", Json.str (S "vm1")), (S "summary", Json.str (S "new")),
         (S "action", Json.str (S "Create")), (S "confidence_level", Json.str (S "low"))]]) ∧
    (∃ d hi lo gate btext,
      normalize_data (Json.obj [(S "resources", Json.arr [Json.obj
          [(S "resource_name", Json.str (S "vm1")), (S "summary", Json.str (S "new")),
           (S "action", Json.str (S "Create")), (S "confidence_level", Json.str (S "low"))]]),
        (S "risk_assessment", Json.obj C1RA)]) = .ok d ∧
      filter_by_confidence d = .ok (hi, lo) ∧
      evaluate_risk_buckets hi (S "high") (S "high") (S "high") = .ok gate ∧
      build_filtered_whatif hi = .ok btext) :=
  ⟨rfl, c2_core_total
    [(S "resources", Json.arr [Json.obj
        [(S "resource_name", Json.str (S "vm1")), (S "summary", Json.str (S "new")),
         (S "action", Json.str (S "Create")), (S "confidence_level", Json.str (S "low"))]]),
      (S "risk_assessment", Json.obj C1RA)]
    [Json.obj
      [(S "resource_name", Json.str (S "vm1")), (S "summary", Json.str (S "new")),
       (S "action", Json.str (S "Create")), (S "confidence_level", Json.str (S "low"))]]
    (S "high") (S "high") (S "high") rfl
    (by
      intro r hr
      rcases List.mem_cons.mp hr with rfl | hr2
      · exact ⟨_, rfl, ⟨_, rfl⟩, ⟨_, rfl⟩, Or.inr ⟨_, rfl⟩, Or.inr ⟨_, rfl⟩⟩
      · exact absurd hr2 (List.not_mem_nil r))
    (Or.inr ⟨C1RA, rfl,
      Or.inr ⟨[(S "risk_level", Json.str (S "high"))], rfl, Or.inr ⟨S "high", rfl⟩⟩,
      Or.inr ⟨[(S "risk_level", Json.str (S "low"))], rfl, Or.inr ⟨S "low", rfl⟩⟩,
      Or.inl rfl⟩)
    (Or.inr (Or.inr rfl)) (Or.inr (Or.inr rfl)) (Or.inr (Or.inr rfl))⟩

end WhatIf
namespace WhatIf

theorem findBalanced_cons (d : Nat) (inStr esc : Bool) (c : Char) (cs : List Char) :
    findBalanced d inStr esc (c :: cs) =
      if esc then (fun r => c :: r) <$> findBalanced d inStr false cs
      else if c = '\\' then (fun r => c :: r) <$> findBalanced d inStr true cs
      else if c = '"' then (fun r => c :: r) <$> findBalanced d (!inStr) false cs
      else if inStr then (fun r => c :: r) <$> findBalanced d inStr false cs
      else if c = '{' then (fun r => c :: r) <$> findBalanced (d + 1) false false cs
      else if c = '}' then
        if d = 1 then some [c]
        else (fun r => c :: r) <$> findBalanced (d - 1) false false cs
      else (fun r => c :: r) <$> findBalanced d false false cs := rfl

theorem neutral_nil : Neutral [] := by
  intro d t _
  simp only [List.nil_append]
  cases findBalanced d false false t <;> rfl

theorem neutral_append {a b : List Char} (ha : Neutral a) (hb : Neutral b) :
    Neutral (a ++ b) := by
  intro d t hd
  rw [List.append_assoc, ha d (b ++ t) hd, hb d t hd]
  cases findBalanced d false false t <;> simp

theorem neutral_inert {c : Char} (h : InertChar c) : Neutral [c] := by
  obtain ⟨h1, h2, h3, h4⟩ := h
  intro d t hd
  show findBalanced d false false (c :: t) = _
  rw [findBalanced_cons, if_neg (by simp), if_neg h4, if_neg h3, if_neg (by simp),
    if_neg h1, if_neg h2]
  cases findBalanced d false false t <;> rfl

theorem neutral_of_all_inert {l : List Char} (h : ∀ c ∈ l, InertChar c) : Neutral l := by
  induction l with
  | nil => exact neutral_nil
  | cons c rest ih =>
    exact neutral_append (a := [c]) (neutral_inert (h c (by simp)))
      (ih (fun x hx => h x (by simp [hx])))

theorem strNeutral_nil : StrNeutral [] := by
  intro d t
  simp only [List.nil_append]
  cases findBalanced d true false t <;> rfl

theorem strNeutral_append {a b : List Char} (ha : StrNeutral a) (hb : StrNeutral b) :
    StrNeutral (a ++ b) := by
  intro d t
  rw [List.append_assoc, ha d (b ++ t), hb d t]
  cases findBalanced d true false t <;> simp

theorem strNeutral_char {c : Char} (h3 : c ≠ '"') (h4 : c ≠ '\\') : StrNeutral [c] := by
  intro d t
  show findBalanced d true false (c :: t) = _
  rw [findBalanced_cons, if_neg (by simp), if_neg h4, if_neg h3, if_pos rfl]
  cases findBalanced d true false t <;> rfl

theorem strNeutral_escape (c : Char) : StrNeutral ['\\', c] := by
  intro d t
  show findBalanced d true false ('\\' :: c :: t) = _
  rw [findBalanced_cons, if_neg (by simp), if_pos rfl]
  rw [show findBalanced d true true (c :: t) =
      (fun r => c :: r) <$> findBalanced d true false t from by
    rw [findBalanced_cons, if_pos rfl]]
  cases findBalanced d true false t <;> rfl

theorem neutral_string {inner : List Char} (h : StrNeutral inner) :
    Neutral ('"' :: inner ++ ['"']) := by
  intro d t hd
  have hq : ∀ (b : Bool) (u : List Char), findBalanced d b false ('"' :: u) =
      (fun r => '"' :: r) <$> findBalanced d (!b) false u := by
    intro b u
    rw [findBalanced_cons, if_neg (by simp), if_neg (by decide), if_pos rfl]
  simp only [List.cons_append, List.append_assoc, List.singleton_append, List.nil_append]
  rw [hq, show (!false) = true from rfl, h d ('"' :: t), hq, show (!true) = false from rfl]
  cases findBalanced d false false t <;> simp

theorem neutral_braces {l : List Char} (h : Neutral l) : Neutral ('{' :: l ++ ['}']) := by
  intro d t hd
  simp only [List.cons_append, List.append_assoc, List.singleton_append, List.nil_append]
  rw [findBalanced_cons, if_neg (by simp), if_neg (by decide), if_neg (by decide),
    if_neg (by simp), if_pos rfl]
  rw [h (d + 1) ('}' :: t) (by omega)]
  rw [show findBalanced (d + 1) false false ('}' :: t) =
      (fun r => '}' :: r) <$> findBalanced d false false t from by
    rw [findBalanced_cons, if_neg (by simp), if_neg (by decide), if_neg (by decide),
      if_neg (by simp), if_neg (by decide), if_pos rfl, if_neg (by omega)]
    simp]
  cases findBalanced d false false t <;> simp

end WhatIf
namespace WhatIf

theorem skipWs_split (cs : List Char) :
    ∃ w, cs = w ++ skipWs cs ∧ ∀ c ∈ w, isWsChar c = true := by
  induction cs with
  | nil => exact ⟨[], rfl, by simp⟩
  | cons c rest ih =>
    by_cases h : isWsChar c = true
    · obtain ⟨w, hw, hall⟩ := ih
      refine ⟨c :: w, ?_, ?_⟩
      · rw [show skipWs (c :: rest) = skipWs rest from by simp [skipWs, h]]
        rw [List.cons_append, ← hw]
      · intro x hx
        rcases List.mem_cons.mp hx with rfl | hx2
        · exact h
        · exact hall x hx2
    · refine ⟨[], ?_, by simp⟩
      rw [show skipWs (c :: rest) = c :: rest from by simp [skipWs, h]]
      rfl

theorem skipWs_nil_all (cs : List Char) (h : skipWs cs = []) :
    ∀ c ∈ cs, isWsChar c = true := by
  induction cs with
  | nil => simp
  | cons c rest ih =>
    by_cases hc : isWsChar c = true
    · rw [show skipWs (c :: rest) = skipWs rest from by simp [skipWs, hc]] at h
      intro x hx
      rcases List.mem_cons.mp hx with rfl | hx2
      · exact hc
      · exact ih h x hx2
    · rw [show skipWs (c :: rest) = c :: rest from by simp [skipWs, hc]] at h
      cases h

theorem ws_inert {c : Char} (h : isWsChar c = true) : InertChar c := by
  refine ⟨?_, ?_, ?_, ?_⟩ <;>
  · intro he
    subst he
    exact absurd h (by decide)

theorem matchLit_split : ∀ (pat cs r : List Char), matchLit pat cs = some r → cs = pat ++ r := by
  intro pat
  induction pat with
  | nil =>
    intro cs r h
    exact Option.some.inj h
  | cons p ps ih =>
    intro cs r h
    cases cs with
    | nil => cases h
    | cons c rest =>
      unfold matchLit at h
      by_cases hc : c = p
      · rw [if_pos hc] at h
        rw [hc, List.cons_append, ← ih rest r h]
      · rw [if_neg hc] at h
        cases h

theorem digit_inert {c : Char} (h : c.isDigit = true) : InertChar c := by
  refine ⟨?_, ?_, ?_, ?_⟩ <;>
  · intro he
    subst he
    exact absurd h (by decide)

theorem hex_not_quote {c : Char} (h : isHexChar c = true) : c ≠ '"' ∧ c ≠ '\\' := by
  constructor <;>
  · intro he
    subst he
    exact absurd h (by decide)

theorem parseStringBody_split :
    ∀ (fuel : Nat) (cs s rest : List Char), parseStringBody fuel cs = some (s, rest) →
      ∃ inner, cs = inner ++ '"' :: rest ∧ StrNeutral inner := by
  intro fuel
  induction fuel with
  | zero =>
    intro cs s rest h
    rw [show parseStringBody 0 cs = none from by cases cs <;> rfl] at h
    cases h
  | succ fuel ih =>
    intro cs s rest h
    cases cs with
    | nil => cases h
    | cons c cs1 =>
      unfold parseStringBody at h
      split at h
      · injection h with h
        rw [Prod.mk.injEq] at h
        refine ⟨[], ?_, strNeutral_nil⟩
        have hq : c = '"' := by assumption
        rw [hq, h.2]
        rfl
      · split at h
        · split at h
          · cases h
          · split at h
            · rename_i x e cs2 hesc
              rcases Option.map_eq_some'.mp h with ⟨⟨s1, r1⟩, hx, heq⟩
              rw [Prod.mk.injEq] at heq
              have hb : c = '\\' := by assumption
              obtain ⟨inner, hcs2, hneu⟩ := ih cs2 s1 r1 hx
              refine ⟨'\\' :: e :: inner, ?_, ?_⟩
              · rw [hb, ← heq.2, hcs2]
                rfl
              · exact strNeutral_append (a := ['\\', e]) (strNeutral_escape e) hneu
            · split at h
              · split at h
                · split at h
                  · rename_i cs1 e hsimp hu x2 h1 h2 h3 h4 cs6 hhex
                    rcases Option.map_eq_some'.mp h with ⟨⟨s1, r1⟩, hx, heq⟩
                    rw [Prod.mk.injEq] at heq
                    have hb : c = '\\' := by assumption
                    obtain ⟨inner, hcs6, hneu⟩ := ih cs6 s1 r1 hx
                    simp only [Bool.and_eq_true] at hhex
                    refine ⟨'\\' :: e :: h1 :: h2 :: h3 :: h4 :: inner, ?_, ?_⟩
                    · rw [hb, ← heq.2, hcs6]
                      rfl
                    · refine strNeutral_append (a := ['\\', e]) (strNeutral_escape e) ?_
                      refine strNeutral_append (a := [h1])
                        (strNeutral_char (hex_not_quote hhex.1.1.1).1
                          (hex_not_quote hhex.1.1.1).2) ?_
                      refine strNeutral_append (a := [h2])
                        (strNeutral_char (hex_not_quote hhex.1.1.2).1
                          (hex_not_quote hhex.1.1.2).2) ?_
                      refine strNeutral_append (a := [h3])
                        (strNeutral_char (hex_not_quote hhex.1.2).1
                          (hex_not_quote hhex.1.2).2) ?_
                      exact strNeutral_append (a := [h4])
                        (strNeutral_char (hex_not_quote hhex.2).1
                          (hex_not_quote hhex.2).2) hneu
                  · cases h
                · cases h
              · cases h
        · split at h
          · cases h
          · rcases Option.map_eq_some'.mp h with ⟨⟨s1, r1⟩, hx, heq⟩
            rw [Prod.mk.injEq] at heq
            have hq : ¬c = '"' := by assumption
            have hb : ¬c = '\\' := by assumption
            obtain ⟨inner, hcs1, hneu⟩ := ih cs1 s1 r1 hx
            refine ⟨c :: inner, ?_, ?_⟩
            · rw [← heq.2, hcs1]
              rfl
            · exact strNeutral_append (a := [c]) (strNeutral_char hq hb) hneu

theorem skipWs_cons_not_ws {c : Char} (cs : List Char) (h : ¬isWsChar c = true) :
    skipWs (c :: cs) = c :: cs := by
  simp [skipWs, h]

theorem orElse_eq_some_cases {α : Type} (a : Option α) (b : Unit → Option α) (x : α)
    (h : (Option.orElse a b) = some x) : a = some x ∨ (a = none ∧ b () = some x) := by
  cases a with
  | none => exact Or.inr ⟨rfl, h⟩
  | some y => exact Or.inl h

theorem takeDigits_split (cs : List Char) :
    cs = (takeDigits cs).1 ++ (takeDigits cs).2 ∧
      ∀ x ∈ (takeDigits cs).1, x.isDigit = true := by
  refine ⟨(List.takeWhile_append_dropWhile Char.isDigit cs).symm, ?_⟩
  intro x hx
  exact List.mem_takeWhile_imp hx

theorem parseIntPart_split (cs ip r : List Char) (h : parseIntPart cs = some (ip, r)) :
    cs = ip ++ r ∧ ∀ x ∈ ip, InertChar x := by
  cases cs with
  | nil => cases h
  | cons c cs1 =>
    simp only [parseIntPart] at h
    split at h
    · injection h with h
      rw [Prod.mk.injEq] at h
      have hc : c = '0' := by assumption
      refine ⟨?_, ?_⟩
      · rw [← h.1, ← h.2]
        rfl
      · intro x hx
        rw [← h.1] at hx
        rcases List.mem_cons.mp hx with rfl | hx2
        · exact digit_inert (by rw [hc]; decide)
        · cases hx2
    · split at h
      · injection h with h
        rw [Prod.mk.injEq] at h
        have hc : c.isDigit = true := by assumption
        obtain ⟨hsp, hdig⟩ := takeDigits_split cs1
        refine ⟨?_, ?_⟩
        · rw [← h.1, ← h.2, List.cons_append, ← hsp]
        · intro x hx
          rw [← h.1] at hx
          rcases List.mem_cons.mp hx with rfl | hx2
          · exact digit_inert hc
          · exact digit_inert (hdig x hx2)
      · cases h

theorem parseFracPart_split (cs : List Char) :
    cs = (parseFracPart cs).1 ++ (parseFracPart cs).2 ∧
      ∀ x ∈ (parseFracPart cs).1, InertChar x := by
  cases cs with
  | nil =>
    refine ⟨rfl, ?_⟩
    intro x hx
    simp [parseFracPart] at hx
  | cons c cs1 =>
    by_cases hc : c = '.'
    · subst hc
      by_cases hE : (takeDigits cs1).1.isEmpty = true
      · have hval : parseFracPart ('.' :: cs1) = ([], '.' :: cs1) := by
          simp [parseFracPart, hE]
        rw [hval]
        exact ⟨rfl, by simp⟩
      · have hval : parseFracPart ('.' :: cs1) =
            ('.' :: (takeDigits cs1).1, (takeDigits cs1).2) := by
          simp [parseFracPart, hE]
        rw [hval]
        obtain ⟨hsp, hdig⟩ := takeDigits_split cs1
        refine ⟨?_, ?_⟩
        · show '.' :: cs1 = ('.' :: (takeDigits cs1).1) ++ (takeDigits cs1).2
          rw [List.cons_append, ← hsp]
        · intro x hx
          rcases List.mem_cons.mp hx with rfl | hx2
          · exact ⟨by decide, by decide, by decide, by decide⟩
          · exact digit_inert (hdig x hx2)
    · have hval : parseFracPart (c :: cs1) = ([], c :: cs1) := by
        unfold parseFracPart
        split
        · rename_i cs2 heq
          exfalso
          apply hc
          injection heq with h1 h2
        · rfl
      rw [hval]
      exact ⟨rfl, by simp⟩

theorem parseExpPart_split (cs : List Char) :
    cs = (parseExpPart cs).1 ++ (parseExpPart cs).2 ∧
      ∀ x ∈ (parseExpPart cs).1, InertChar x := by
  cases cs with
  | nil =>
    refine ⟨rfl, ?_⟩
    intro x hx
    simp [parseExpPart] at hx
  | cons e cs1 =>
    by_cases he : (e = 'e' || e = 'E') = true
    · have he2 : e = 'e' ∨ e = 'E' := by simpa using he
      cases cs1 with
      | nil =>
        have hval : parseExpPart [e] = ([], [e]) := by
          simp [parseExpPart, he]
        rw [hval]
        exact ⟨rfl, by simp⟩
      | cons s cs2 =>
        by_cases hs : (s = '+' || s = '-') = true
        · have hs2 : s = '+' ∨ s = '-' := by simpa using hs
          by_cases hE : (takeDigits cs2).1.isEmpty = true
          · have hval : parseExpPart (e :: s :: cs2) = ([], e :: s :: cs2) := by
              simp [parseExpPart, he, hs, hE]
            rw [hval]
            exact ⟨rfl, by simp⟩
          · have hval : parseExpPart (e :: s :: cs2) =
                (e :: s :: (takeDigits cs2).1, (takeDigits cs2).2) := by
              simp [parseExpPart, he, hs, hE]
            rw [hval]
            obtain ⟨hsp, hdig⟩ := takeDigits_split cs2
            refine ⟨?_, ?_⟩
            · show e :: s :: cs2 = (e :: s :: (takeDigits cs2).1) ++ (takeDigits cs2).2
              rw [List.cons_append, List.cons_append, ← hsp]
            · intro x hx
              rcases List.mem_cons.mp hx with rfl | hx2
              · rcases he2 with rfl | rfl <;> exact ⟨by decide, by decide, by decide, by decide⟩
              · rcases List.mem_cons.mp hx2 with rfl | hx3
                · rcases hs2 with rfl | rfl <;> exact ⟨by decide, by decide, by decide, by decide⟩
                · exact digit_inert (hdig x hx3)
        · by_cases hE : (takeDigits (s :: cs2)).1.isEmpty = true
          · have hval : parseExpPart (e :: s :: cs2) = ([], e :: s :: cs2) := by
              simp [parseExpPart, he, hs, hE]
            rw [hval]
            exact ⟨rfl, by simp⟩
          · have hval : parseExpPart (e :: s :: cs2) =
                (e :: (takeDigits (s :: cs2)).1, (takeDigits (s :: cs2)).2) := by
              simp [parseExpPart, he, hs, hE]
            rw [hval]
            obtain ⟨hsp, hdig⟩ := takeDigits_split (s :: cs2)
            refine ⟨?_, ?_⟩
            · show e :: s :: cs2 = (e :: (takeDigits (s :: cs2)).1) ++ (takeDigits (s :: cs2)).2
              rw [List.cons_append, ← hsp]
            · intro x hx
              rcases List.mem_cons.mp hx with rfl | hx2
              · rcases he2 with rfl | rfl <;> exact ⟨by decide, by decide, by decide, by decide⟩
              · exact digit_inert (hdig x hx2)
    · have hval : parseExpPart (e :: cs1) = ([], e :: cs1) := by
        simp [parseExpPart, he]
      rw [hval]
      exact ⟨rfl, by simp⟩

theorem parseNumTok_split (cs tok r : List Char) (h : parseNumTok cs = some (tok, r)) :
    cs = tok ++ r ∧ ∀ x ∈ tok, InertChar x := by
  unfold parseNumTok at h
  split at h
  · cases h
  · rename_i ip cs1 hip
    injection h with h
    rw [Prod.mk.injEq] at h
    obtain ⟨hsp1, hin1⟩ := parseIntPart_split cs ip cs1 hip
    obtain ⟨hsp2, hin2⟩ := parseFracPart_split cs1
    obtain ⟨hsp3, hin3⟩ := parseExpPart_split (parseFracPart cs1).2
    refine ⟨?_, ?_⟩
    · calc cs = ip ++ cs1 := hsp1
        _ = ip ++ ((parseFracPart cs1).1 ++ (parseFracPart cs1).2) := by rw [← hsp2]
        _ = ip ++ ((parseFracPart cs1).1 ++
            ((parseExpPart (parseFracPart cs1).2).1 ++
              (parseExpPart (parseFracPart cs1).2).2)) := by rw [← hsp3]
        _ = (ip ++ (parseFracPart cs1).1 ++ (parseExpPart (parseFracPart cs1).2).1) ++
            (parseExpPart (parseFracPart cs1).2).2 := by simp only [List.append_assoc]
        _ = tok ++ r := by rw [h.1, h.2]
    · intro x hx
      rw [← h.1] at hx
      rcases List.mem_append.mp hx with hx1 | hx2
      · rcases List.mem_append.mp hx1 with hx3 | hx4
        · exact hin1 x hx3
        · exact hin2 x hx4
      · exact hin3 x hx2

theorem orElse_some_cases {α : Type} (a b : Option α) (x : α)
    (h : (a <|> b) = some x) : a = some x ∨ (a = none ∧ b = some x) := by
  cases a with
  | none => exact Or.inr ⟨rfl, h⟩
  | some y => exact Or.inl h

theorem lit_case (lit cs r : List Char) (hm : matchLit lit cs = some r)
    (hin : ∀ x ∈ lit, InertChar x) : ∃ l, cs = l ++ r ∧ Neutral l :=
  ⟨lit, matchLit_split lit cs r hm, neutral_of_all_inert hin⟩

theorem parse_neutral : ∀ fuel : Nat,
    (∀ cs v rest, parseValue fuel cs = some (v, rest) →
      ∃ l, cs = l ++ rest ∧ Neutral l) ∧
    (∀ cs acc v rest, parseMembers fuel cs acc = some (v, rest) →
      ∃ l, cs = l ++ '}' :: rest ∧ Neutral l) ∧
    (∀ cs acc v rest, parseElems fuel cs acc = some (v, rest) →
      ∃ l, cs = l ++ ']' :: rest ∧ Neutral l) := by
  intro fuel
  induction fuel with
  | zero =>
    refine ⟨?_, ?_, ?_⟩
    · intro cs v rest h
      simp [parseValue] at h
    · intro cs acc v rest h
      simp [parseMembers] at h
    · intro cs acc v rest h
      simp [parseElems] at h
  | succ fuel ih =>
    obtain ⟨ihV, ihM, ihE⟩ := ih
    refine ⟨?_, ?_, ?_⟩
    · intro cs v rest h
      cases cs with
      | nil => simp [parseValue] at h
      | cons c cs1 =>
        simp only [parseValue] at h
        split at h
        · -- string
          rcases Option.map_eq_some'.mp h with ⟨⟨s, r⟩, hx, heq⟩
          have hc : c = '"' := by assumption
          obtain ⟨inner, hcs1, hneu⟩ := parseStringBody_split fuel cs1 s r hx
          injection heq with heq1 heq2
          refine ⟨'"' :: inner ++ ['"'], ?_, neutral_string hneu⟩
          rw [hc, hcs1, ← heq2]
          simp only [List.cons_append, List.append_assoc, List.singleton_append,
            List.nil_append]
        · split at h
          · -- object
            have hc : c = '\x7b' := by assumption
            split at h
            · rename_i x2 cs2 hsk
              injection h with h
              rw [Prod.mk.injEq] at h
              obtain ⟨w, hw, hall⟩ := skipWs_split cs1
              rw [hsk] at hw
              refine ⟨'\x7b' :: w ++ ['\x7d'], ?_, ?_⟩
              · rw [hc, hw, ← h.2]
                simp only [List.cons_append, List.append_assoc, List.singleton_append,
                  List.nil_append]
              · exact neutral_braces (neutral_of_all_inert (fun x hx => ws_inert (hall x hx)))
            · obtain ⟨lM, hlM, hneuM⟩ := ihM (skipWs cs1) [] v rest h
              obtain ⟨w, hw, hall⟩ := skipWs_split cs1
              rw [hlM] at hw
              refine ⟨'\x7b' :: (w ++ lM) ++ ['\x7d'], ?_, ?_⟩
              · rw [hc, hw]
                simp only [List.cons_append, List.append_assoc, List.singleton_append,
                  List.nil_append]
              · exact neutral_braces
                  (neutral_append (neutral_of_all_inert (fun x hx => ws_inert (hall x hx))) hneuM)
          · split at h
            · -- array
              have hc : c = '[' := by assumption
              split at h
              · rename_i x2 cs2 hsk
                injection h with h
                rw [Prod.mk.injEq] at h
                obtain ⟨w, hw, hall⟩ := skipWs_split cs1
                rw [hsk] at hw
                refine ⟨'[' :: w ++ [']'], ?_, ?_⟩
                · rw [hc, hw, ← h.2]
                  simp only [List.cons_append, List.append_assoc, List.singleton_append,
                    List.nil_append]
                · exact neutral_append (a := ['[']) (neutral_inert ⟨by decide, by decide, by decide, by decide⟩)
                    (neutral_append (neutral_of_all_inert (fun x hx => ws_inert (hall x hx)))
                      (neutral_inert ⟨by decide, by decide, by decide, by decide⟩))
              · obtain ⟨lE, hlE, hneuE⟩ := ihE (skipWs cs1) [] v rest h
                obtain ⟨w, hw, hall⟩ := skipWs_split cs1
                rw [hlE] at hw
                refine ⟨'[' :: (w ++ lE) ++ [']'], ?_, ?_⟩
                · rw [hc, hw]
                  simp only [List.cons_append, List.append_assoc, List.singleton_append,
                    List.nil_append]
                · exact neutral_append (a := ['[']) (neutral_inert ⟨by decide, by decide, by decide, by decide⟩)
                    (neutral_append
                      (neutral_append (neutral_of_all_inert (fun x hx => ws_inert (hall x hx)))
                        hneuE)
                      (neutral_inert ⟨by decide, by decide, by decide, by decide⟩))
            · -- literals and numbers
              rcases orElse_some_cases _ _ _ h with h1 | ⟨hn1, h⟩
              · rcases Option.map_eq_some'.mp h1 with ⟨r, hm, heq⟩
                have heq' : (_, r) = (v, rest) := heq
                rw [Prod.mk.injEq] at heq'
                rw [← heq'.2]
                exact lit_case (S "true") _ r hm (by decide)
              rcases orElse_some_cases _ _ _ h with h2 | ⟨hn2, h⟩
              · rcases Option.map_eq_some'.mp h2 with ⟨r, hm, heq⟩
                have heq' : (_, r) = (v, rest) := heq
                rw [Prod.mk.injEq] at heq'
                rw [← heq'.2]
                exact lit_case (S "false") _ r hm (by decide)
              rcases orElse_some_cases _ _ _ h with h3 | ⟨hn3, h⟩
              · rcases Option.map_eq_some'.mp h3 with ⟨r, hm, heq⟩
                have heq' : (_, r) = (v, rest) := heq
                rw [Prod.mk.injEq] at heq'
                rw [← heq'.2]
                exact lit_case (S "null") _ r hm (by decide)
              rcases orElse_some_cases _ _ _ h with h4 | ⟨hn4, h⟩
              · rcases Option.map_eq_some'.mp h4 with ⟨r, hm, heq⟩
                have heq' : (_, r) = (v, rest) := heq
                rw [Prod.mk.injEq] at heq'
                rw [← heq'.2]
                exact lit_case (S "NaN") _ r hm (by decide)
              rcases orElse_some_cases _ _ _ h with h5 | ⟨hn5, h⟩
              · rcases Option.map_eq_some'.mp h5 with ⟨r, hm, heq⟩
                have heq' : (_, r) = (v, rest) := heq
                rw [Prod.mk.injEq] at heq'
                rw [← heq'.2]
                exact lit_case (S "Infinity") _ r hm (by decide)
              rcases orElse_some_cases _ _ _ h with h6 | ⟨hn6, h⟩
              · rcases Option.map_eq_some'.mp h6 with ⟨r, hm, heq⟩
                have heq' : (_, r) = (v, rest) := heq
                rw [Prod.mk.injEq] at heq'
                rw [← heq'.2]
                exact lit_case (S "-Infinity") _ r hm (by decide)
              split at h
              · rename_i hneg
                rcases Option.map_eq_some'.mp h with ⟨⟨tok, r⟩, hx, heq⟩
                have heq' : (_, _) = (v, rest) := heq
                rw [Prod.mk.injEq] at heq'
                obtain ⟨hsp, hin⟩ := parseNumTok_split cs1 tok r hx
                refine ⟨'-' :: tok, ?_, ?_⟩
                · rw [hneg, hsp, ← heq'.2]
                  simp only [List.cons_append, List.append_assoc, List.singleton_append,
                    List.nil_append]
                · refine neutral_of_all_inert ?_
                  intro x hx2
                  rcases List.mem_cons.mp hx2 with rfl | hx3
                  · exact ⟨by decide, by decide, by decide, by decide⟩
                  · exact hin x hx3
              · rcases Option.map_eq_some'.mp h with ⟨⟨tok, r⟩, hx, heq⟩
                have heq' : (_, _) = (v, rest) := heq
                rw [Prod.mk.injEq] at heq'
                obtain ⟨hsp, hin⟩ := parseNumTok_split (c :: cs1) tok r hx
                refine ⟨tok, ?_, neutral_of_all_inert hin⟩
                rw [hsp, ← heq'.2]
    · intro cs acc v rest h
      cases cs with
      | nil => simp [parseMembers] at h
      | cons c cs1 =>
        simp only [parseMembers] at h
        split at h
        · split at h
          · cases h
          · split at h
            · split at h
              · cases h
              · split at h
                · rename_i u0 k2 hquote x3 k cs2 hstr x4 cs3 hcolon x5 v1 cs4 hval x6 cs5 hcomma
                  obtain ⟨kin, hk, hkneu⟩ := parseStringBody_split fuel k2 k cs2 hstr
                  obtain ⟨w1, hw1, ha1⟩ := skipWs_split cs2
                  rw [hcolon] at hw1
                  obtain ⟨w2, hw2, ha2⟩ := skipWs_split cs3
                  obtain ⟨lV, hlV, hneuV⟩ := ihV (skipWs cs3) v1 cs4 hval
                  rw [hlV] at hw2
                  obtain ⟨w3, hw3, ha3⟩ := skipWs_split cs4
                  rw [hcomma] at hw3
                  obtain ⟨w4, hw4, ha4⟩ := skipWs_split cs5
                  obtain ⟨lM, hlM, hneuM⟩ := ihM (skipWs cs5) (insKey acc k v1) v rest h
                  rw [hlM] at hw4
                  refine ⟨('"' :: kin ++ ['"']) ++
                    (w1 ++ ([':'] ++ (w2 ++ (lV ++ (w3 ++ ([','] ++ (w4 ++ lM))))))), ?_, ?_⟩
                  · rw [hquote, hk, hw1, hw2, hw3, hw4]
                    simp only [List.cons_append, List.append_assoc, List.singleton_append,
                      List.nil_append]
                  · refine neutral_append (neutral_string hkneu) ?_
                    refine neutral_append
                      (neutral_of_all_inert (fun x hx => ws_inert (ha1 x hx))) ?_
                    refine neutral_append (neutral_inert ⟨by decide, by decide, by decide, by decide⟩) ?_
                    refine neutral_append
                      (neutral_of_all_inert (fun x hx => ws_inert (ha2 x hx))) ?_
                    refine neutral_append hneuV ?_
                    refine neutral_append
                      (neutral_of_all_inert (fun x hx => ws_inert (ha3 x hx))) ?_
                    refine neutral_append (neutral_inert ⟨by decide, by decide, by decide, by decide⟩) ?_
                    exact neutral_append
                      (neutral_of_all_inert (fun x hx => ws_inert (ha4 x hx))) hneuM
                · rename_i u0 k2 hquote x3 k cs2 hstr x4 cs3 hcolon x5 v1 cs4 hval x6 cs5 hbrace
                  injection h with h
                  rw [Prod.mk.injEq] at h
                  obtain ⟨kin, hk, hkneu⟩ := parseStringBody_split fuel k2 k cs2 hstr
                  obtain ⟨w1, hw1, ha1⟩ := skipWs_split cs2
                  rw [hcolon] at hw1
                  obtain ⟨w2, hw2, ha2⟩ := skipWs_split cs3
                  obtain ⟨lV, hlV, hneuV⟩ := ihV (skipWs cs3) v1 cs4 hval
                  rw [hlV] at hw2
                  obtain ⟨w3, hw3, ha3⟩ := skipWs_split cs4
                  rw [hbrace] at hw3
                  refine ⟨('"' :: kin ++ ['"']) ++
                    (w1 ++ ([':'] ++ (w2 ++ (lV ++ w3)))), ?_, ?_⟩
                  · rw [hquote, hk, hw1, hw2, hw3, ← h.2]
                    simp only [List.cons_append, List.append_assoc, List.singleton_append,
                      List.nil_append]
                  · refine neutral_append (neutral_string hkneu) ?_
                    refine neutral_append
                      (neutral_of_all_inert (fun x hx => ws_inert (ha1 x hx))) ?_
                    refine neutral_append (neutral_inert ⟨by decide, by decide, by decide, by decide⟩) ?_
                    refine neutral_append
                      (neutral_of_all_inert (fun x hx => ws_inert (ha2 x hx))) ?_
                    exact neutral_append hneuV
                      (neutral_of_all_inert (fun x hx => ws_inert (ha3 x hx)))
                · cases h
            · cases h
        · cases h
    · intro cs acc v rest h
      simp only [parseElems] at h
      split at h
      · cases h
      · rename_i x1 v1 cs1 hval
        split at h
        · rename_i x2 cs2 hcomma
          obtain ⟨lV, hlV, hneuV⟩ := ihV cs v1 cs1 hval
          obtain ⟨w1, hw1, ha1⟩ := skipWs_split cs1
          rw [hcomma] at hw1
          obtain ⟨w2, hw2, ha2⟩ := skipWs_split cs2
          obtain ⟨lE, hlE, hneuE⟩ := ihE (skipWs cs2) (acc ++ [v1]) v rest h
          rw [hlE] at hw2
          refine ⟨lV ++ (w1 ++ ([','] ++ (w2 ++ lE))), ?_, ?_⟩
          · rw [hlV, hw1, hw2]
            simp only [List.cons_append, List.append_assoc, List.singleton_append,
              List.nil_append]
          · refine neutral_append hneuV ?_
            refine neutral_append
              (neutral_of_all_inert (fun x hx => ws_inert (ha1 x hx))) ?_
            refine neutral_append (neutral_inert ⟨by decide, by decide, by decide, by decide⟩) ?_
            exact neutral_append
              (neutral_of_all_inert (fun x hx => ws_inert (ha2 x hx))) hneuE
        · rename_i x2 cs2 hclose
          injection h with h
          rw [Prod.mk.injEq] at h
          obtain ⟨lV, hlV, hneuV⟩ := ihV cs v1 cs1 hval
          obtain ⟨w1, hw1, ha1⟩ := skipWs_split cs1
          rw [hclose] at hw1
          refine ⟨lV ++ w1, ?_, ?_⟩
          · rw [hlV, hw1, ← h.2]
            simp only [List.cons_append, List.append_assoc, List.singleton_append,
              List.nil_append]
          · exact neutral_append hneuV
              (neutral_of_all_inert (fun x hx => ws_inert (ha1 x hx)))
        · cases h

theorem append_singleton_cancel (l1 l2 l3 : List Char) (x y : Char)
    (h : l1 ++ [x] = l2 ++ y :: l3) (hne : ∀ c ∈ l3, c ≠ x) :
    l3 = [] ∧ l1 = l2 ∧ y = x := by
  rcases List.eq_nil_or_concat l3 with rfl | ⟨l4, z, rfl⟩
  · obtain ⟨h1, h2⟩ := List.append_inj' h rfl
    injection h2 with h3
    exact ⟨rfl, h1, h3.symm⟩
  · exfalso
    simp only [List.concat_eq_append] at h hne
    have hz : z ∈ l4 ++ [z] := by simp
    have h' : l1 ++ [x] = (l2 ++ y :: l4) ++ [z] := by
      rw [h]
      simp only [List.cons_append, List.append_assoc]
    obtain ⟨h1, h2⟩ := List.append_inj' h' rfl
    injection h2 with h3
    exact hne z hz h3.symm

theorem parseValue_obj (fuel : Nat) (cs : List Char) :
    parseValue (fuel + 1) ('\x7b' :: cs) =
      match skipWs cs with
      | '\x7d' :: cs2 => some (Json.obj [], cs2)
      | cs2 => parseMembers fuel cs2 [] := by
  simp only [parseValue]
  rw [if_neg (by decide), if_pos trivial]

theorem ws_ne_rbrace {c : Char} (h : isWsChar c = true) : c ≠ '\x7d' :=
  (ws_inert h).2.1

theorem loads_object_neutral (body : List Char) (v : Json)
    (h : json_loads ('\x7b' :: body ++ ['\x7d']) = some v) : Neutral body := by
  unfold json_loads at h
  rw [List.cons_append] at h
  rw [skipWs_cons_not_ws (c := '\x7b') (body ++ ['\x7d']) (by decide)] at h
  rw [List.length_cons] at h
  rw [parseValue_obj] at h
  split at h
  · rename_i v1 rest heq
    split at heq
    · rename_i x2 cs2 hsk
      injection heq with heq
      rw [Prod.mk.injEq] at heq
      split at h
      · rename_i hrest
        rw [← heq.2] at hrest
        obtain ⟨w, hw, hall⟩ := skipWs_split (body ++ ['\x7d'])
        rw [hsk] at hw
        obtain ⟨hnil, hbw, _⟩ := append_singleton_cancel body w cs2 '\x7d' '\x7d' hw
          (fun x hx => ws_ne_rbrace (skipWs_nil_all cs2 hrest x hx))
        rw [hbw]
        exact neutral_of_all_inert (fun x hx => ws_inert (hall x hx))
      · cases h
    · split at h
      · rename_i hrest
        obtain ⟨lM, hlM, hneuM⟩ := (parse_neutral ((body ++ ['\x7d']).length + 1)).2.1
          (skipWs (body ++ ['\x7d'])) [] v1 rest heq
        obtain ⟨w, hw, hall⟩ := skipWs_split (body ++ ['\x7d'])
        rw [hlM] at hw
        have hw' : body ++ ['\x7d'] = (w ++ lM) ++ '\x7d' :: rest := by
          rw [hw]
          simp only [List.cons_append, List.append_assoc]
        obtain ⟨hnil, hbw, _⟩ := append_singleton_cancel body (w ++ lM) rest '\x7d' '\x7d' hw'
          (fun x hx => ws_ne_rbrace (skipWs_nil_all rest hrest x hx))
        rw [hbw]
        exact neutral_append (neutral_of_all_inert (fun x hx => ws_inert (hall x hx))) hneuM
      · cases h
  · cases h

theorem firstBraceTail_eq :
    ∀ (p : List Char), '\x7b' ∉ p → ∀ rest : List Char,
      firstBraceTail (p ++ '\x7b' :: rest) = '\x7b' :: rest := by
  intro p
  induction p with
  | nil =>
    intro _ rest
    simp [firstBraceTail, List.dropWhile_cons]
  | cons a p ih =>
    intro hp rest
    have ha : ¬(a = '\x7b') := fun hq => hp (by rw [hq]; exact List.mem_cons_self '\x7b' p)
    have hp2 : '\x7b' ∉ p := fun hq => hp (List.mem_cons_of_mem a hq)
    rw [List.cons_append]
    rw [show firstBraceTail (a :: (p ++ '\x7b' :: rest)) = firstBraceTail (p ++ '\x7b' :: rest)
      from by simp [firstBraceTail, List.dropWhile_cons, ha]]
    exact ih hp2 rest

theorem findBalanced_of_neutral (body suf : List Char) (h : Neutral body) :
    findBalanced 0 false false ('\x7b' :: body ++ '\x7d' :: suf) =
      some ('\x7b' :: body ++ ['\x7d']) := by
  calc findBalanced 0 false false ('\x7b' :: (body ++ '\x7d' :: suf))
      = (fun r => '\x7b' :: r) <$> findBalanced 1 false false (body ++ '\x7d' :: suf) := rfl
    _ = (fun r => '\x7b' :: r) <$>
        ((fun r => body ++ r) <$> findBalanced 1 false false ('\x7d' :: suf)) := by
          rw [h 1 ('\x7d' :: suf) (by decide)]
    _ = some ('\x7b' :: body ++ ['\x7d']) := rfl

/-- C5 (amended): when the prefix contains no opening brace and the full text does
not itself parse verbatim as JSON, the brace-scan extractor returns exactly the
object parsed from the braced substring, for every suffix and every valid object
body (including bodies whose string values hold escaped quotes and literal
closing braces). -/
theorem c5_embedded_object_extracted (p body suf : List Char) (v : Json)
    (hp : '\x7b' ∉ p)
    (hv : json_loads ('\x7b' :: body ++ ['\x7d']) = some v)
    (hfail : json_loads (p ++ '\x7b' :: (body ++ '\x7d' :: suf)) = none) :
    BicepAdvisor.extract_json (p ++ '\x7b' :: (body ++ '\x7d' :: suf)) = .ok v := by
  have hneu : Neutral body := loads_object_neutral body v hv
  have hfb := firstBraceTail_eq p hp (body ++ '\x7d' :: suf)
  have hbal2 : findBalanced 0 false false ('\x7b' :: (body ++ '\x7d' :: suf)) =
      some ('\x7b' :: (body ++ ['\x7d'])) := findBalanced_of_neutral body suf hneu
  have hv2 : json_loads ('\x7b' :: (body ++ ['\x7d'])) = some v := hv
  unfold BicepAdvisor.extract_json
  rw [hfail, hfb]
  show (match findBalanced 0 false false ('\x7b' :: (body ++ '\x7d' :: suf)) with
    | some cand =>
      match json_loads cand with
      | some w => Except.ok w
      | none => Except.error ExtractErr.noJson
    | none => Except.error ExtractErr.noJson) = Except.ok v
  rw [hbal2]
  show (match json_loads ('\x7b' :: (body ++ ['\x7d'])) with
    | some w => Except.ok w
    | none => Except.error ExtractErr.noJson) = Except.ok v
  rw [hv2]

/-- C5 counterexample: with a brace pair in the prefix, the scan latches onto the
prefix braces and returns the empty object, not the embedded object whose string
value holds an escaped quote and a literal closing brace. -/
theorem c5_truncated_by_braced_lead :
    BicepAdvisor.extract_json (S "\x7b\x7d" ++ '\x7b' :: S "\"a\": \"\\\"\x7d\"" ++ ['\x7d']) =
      .ok (Json.obj []) ∧
    json_loads ('\x7b' :: S "\"a\": \"\\\"\x7d\"" ++ ['\x7d']) =
      some (Json.obj [(S "a", Json.str ['\\', '"', '\x7d'])]) ∧
    jeq (Json.obj []) (Json.obj [(S "a", Json.str ['\\', '"', '\x7d'])]) = false :=
  ⟨rfl, rfl, rfl⟩

/-- Witness for C5's amended theorem at a concrete input with commentary prefix,
an embedded object whose string value holds an escaped quote and a literal
closing brace, and trailing text. -/
theorem c5_embedded_object_extracted_witness :
    '\x7b' ∉ S "Commentary: " ∧
    json_loads ('\x7b' :: S "\"a\": \"\\\"\x7d\"" ++ ['\x7d']) =
      some (Json.obj [(S "a", Json.str ['\\', '"', '\x7d'])]) ∧
    json_loads (S "Commentary: " ++ '\x7b' :: (S "\"a\": \"\\\"\x7d\"" ++ '\x7d' :: S " trailing")) =
      none ∧
    BicepAdvisor.extract_json
        (S "Commentary: " ++ '\x7b' :: (S "\"a\": \"\\\"\x7d\"" ++ '\x7d' :: S " trailing")) =
      .ok (Json.obj [(S "a", Json.str ['\\', '"', '\x7d'])]) :=
  ⟨by decide, rfl, rfl,
    c5_embedded_object_extracted (S "Commentary: ") (S "\"a\": \"\\\"\x7d\"")
      (S " trailing") (Json.obj [(S "a", Json.str ['\\', '"', '\x7d'])])
      (by decide) rfl rfl⟩

end WhatIf
